import Mathlib

/-!
# myCord chat client (`client.c`): a shallow embedding and its properties

Bytes (`char`, `unsigned char`) are natural numbers in `0..255`; a block of
memory is a `List Nat`.  A C string at a pointer is the run of bytes up to the
first NUL; a read that finds no NUL inside the object it started in leaves
that object and has no value here (`cstr_at`).  `uint32_t` values are natural
numbers below `2^32`.
-/

namespace MyCord

/-! ## Constants and enumerations -/

/-- `#define MAX_MESSAGES 1000`. -/
def MAX_MESSAGES : Nat := 1000

/-- `#define INPUT_BUFFER 1024`. -/
def INPUT_BUFFER : Nat := 1024

def MT_LOGIN : Nat := 0
def MT_LOGOUT : Nat := 1
def MT_MESSAGE_SEND : Nat := 2
def MT_MESSAGE_RECV : Nat := 10
def MT_DISCONNECT : Nat := 12
def MT_SYSTEM : Nat := 13

/-! ## `validate_message` -/

/-- The `for` loop of `validate_message`, from index `i` on.  The byte read is
`(unsigned char)msg[i]`; an index outside the list reads as `0`. -/
def validate_loop (msg : List Nat) (len : Nat) (i : Nat) : Bool :=
  if i < len then
    if msg.getD i 0 % 256 < 9 || msg.getD i 0 % 256 > 126 then false
    else validate_loop msg len (i + 1)
  else true
termination_by len - i

/-- `bool validate_message(const char* msg, size_t len)`. -/
def validate_message (msg : List Nat) (len : Nat) : Bool :=
  if len < 1 || len > 1023 then false
  else validate_loop msg len 0

/-- The characters the specification calls letters, digits and spaces. -/
def isLetterDigitSpace (b : Nat) : Prop :=
  (65 ≤ b ∧ b ≤ 90) ∨ (97 ≤ b ∧ b ≤ 122) ∨ (48 ≤ b ∧ b ≤ 57) ∨ b = 32

instance (b : Nat) : Decidable (isLetterDigitSpace b) := by
  unfold isLetterDigitSpace; infer_instance

/-! ## Wire format: `message_t` as a packed block of memory -/

/-- Byte order of the host the client runs on. -/
inductive Endian where
  | little
  | big
  deriving DecidableEq, Repr

/-- Reverse the four bytes of a 32-bit value. -/
def bswap32 (x : Nat) : Nat :=
  (x % 256) * 16777216 + (x / 256 % 256) * 65536 + (x / 65536 % 256) * 256
    + (x / 16777216 % 256)

/-- `htonl`: the argument is converted to `uint32_t`; the identity on a
big-endian host, a byte swap on a little-endian host. -/
def htonl (e : Endian) (x : Nat) : Nat :=
  match e with
  | .big => x % 2 ^ 32
  | .little => bswap32 (x % 2 ^ 32)

/-- `ntohl`: the same conversion in the other direction. -/
def ntohl (e : Endian) (x : Nat) : Nat :=
  match e with
  | .big => x % 2 ^ 32
  | .little => bswap32 (x % 2 ^ 32)

/-- The four bytes of a `uint32_t` object in memory, lowest address first. -/
def store32 (e : Endian) (x : Nat) : List Nat :=
  match e with
  | .little => [x % 256, x / 256 % 256, x / 65536 % 256, x / 16777216 % 256]
  | .big => [x / 16777216 % 256, x / 65536 % 256, x / 256 % 256, x % 256]

/-- The `uint32_t` value of the four bytes at the start of `bs`. -/
def load32 (e : Endian) (bs : List Nat) : Nat :=
  match e with
  | .little =>
    bs.getD 0 0 + bs.getD 1 0 * 256 + bs.getD 2 0 * 65536 + bs.getD 3 0 * 16777216
  | .big =>
    bs.getD 0 0 * 16777216 + bs.getD 1 0 * 65536 + bs.getD 2 0 * 256 + bs.getD 3 0

/-- `sizeof(message_t)` of the packed struct: `4 + 4 + 32 + 1024`. -/
def SIZEOF_MESSAGE : Nat := 1064

/-- A `message_t` object, as the bytes it occupies: `type` at offset 0,
`timestamp` at 4, `username[32]` at 8, `message[1024]` at 40. -/
abbrev message_t := List Nat

/-- `message_t m = {0};`. -/
def zero_message : message_t := List.replicate SIZEOF_MESSAGE 0

/-- Overwrite `data.length` cells of `buf` from offset `off` on. -/
def poke {α : Type} (buf : List α) (off : Nat) (data : List α) : List α :=
  buf.take off ++ data ++ buf.drop (off + data.length)

/-- The C string at a pointer: the bytes before the first NUL. -/
def cstr (s : List Nat) : List Nat := s.takeWhile (fun b => b != 0)

/-- The `n` bytes that `strncpy(dest, src, n)` stores at `dest`: the string
`src` cut at `n` bytes, then NULs up to `n` bytes. -/
def strncpy (src : List Nat) (n : Nat) : List Nat :=
  (cstr src).take n ++ List.replicate (n - (cstr src).length) 0

/-- `m.type = v;`. -/
def set_type (e : Endian) (m : message_t) (v : Nat) : message_t := poke m 0 (store32 e v)

/-- `m.timestamp = v;`. -/
def set_timestamp (e : Endian) (m : message_t) (v : Nat) : message_t := poke m 4 (store32 e v)

/-- `strncpy(m.username, src, sizeof(m.username) - 1);`. -/
def copy_username (m : message_t) (src : List Nat) : message_t := poke m 8 (strncpy src 31)

/-- `strncpy(m.message, src, sizeof(m.message) - 1);`. -/
def copy_message (m : message_t) (src : List Nat) : message_t := poke m 40 (strncpy src 1023)

/-- The value read by `m.type`. -/
def get_type (e : Endian) (m : message_t) : Nat := load32 e m

/-- The value read by `m.timestamp`. -/
def get_timestamp (e : Endian) (m : message_t) : Nat := load32 e (m.drop 4)

/-- The C string read from offset `off` of the object `mem` (by `%s` or
`strstr`): the bytes before the first NUL from there on.  When the object
holds no NUL from `off` on, the read leaves the object and what it finds is
not given by the object: `none`. -/
def cstr_at (mem : List Nat) (off : Nat) : Option (List Nat) :=
  if 0 ∈ mem.drop off then some (cstr (mem.drop off)) else none

/-- The string read at `m.username` of a record `m` that stands alone (the
local `msg` of `receive_thread`): it may run on into `m.message`, the next
member of the packed struct; `none` when the record holds no NUL from there
on and the read leaves the record. -/
def username_str (m : message_t) : Option (List Nat) := cstr_at m 8

/-- The string read at `m.message` of a record `m` that stands alone; `none`
when the body field holds no NUL and the read leaves the record. -/
def message_str (m : message_t) : Option (List Nat) := cstr_at m 40

/-- The record `main` builds before `send_message`: zeroed, then `type`,
`timestamp`, `username` and `message` filled in. -/
def build_message (e : Endian) (kind now : Nat) (username text : List Nat) : message_t :=
  let msg := zero_message
  let msg := set_type e msg (htonl e kind)
  let msg := set_timestamp e msg (htonl e now)
  let msg := copy_username msg username
  copy_message msg text

/-- The login record of `main`: as above, without a message text. -/
def build_login (e : Endian) (now : Nat) (username : List Nat) : message_t :=
  let login := zero_message
  let login := set_type e login (htonl e MT_LOGIN)
  let login := set_timestamp e login (htonl e now)
  copy_username login username

/-- The logout record of `handle_signal` and of `main`: zeroed, `type` only. -/
def build_logout (e : Endian) : message_t :=
  set_type e zero_message (htonl e MT_LOGOUT)

/-- The fields of a record as `receive_thread` and `draw_tui` read them:
`ntohl(msg.type)`, `ntohl(msg.timestamp)` and the strings at `msg.username`
and `msg.message`. -/
def decode (e : Endian) (m : message_t) :
    Nat × Nat × Option (List Nat) × Option (List Nat) :=
  (ntohl e (get_type e m), ntohl e (get_timestamp e m), username_str m, message_str m)

/-! ## The socket, as scripts of `read` and `write` results -/

/-- What the transport has for the next `read`: a chunk of bytes, or an error.
A script that has run out is a stream the peer has closed. -/
inductive ReadEvent where
  | data (bytes : List Nat)
  | error
  deriving DecidableEq, Repr

/-- `read(settings.socket_fd, p, count)`: the return value, the bytes stored
at `p`, and the transport afterwards.  A chunk longer than `count` is
delivered in part and its remainder stays queued. -/
def sys_read (tr : List ReadEvent) (count : Nat) : Int × List Nat × List ReadEvent :=
  match tr with
  | [] => (0, [], [])
  | .error :: rest => (-1, [], rest)
  | .data bs :: rest =>
    if bs.length ≤ count then ((bs.length : Int), bs, rest)
    else ((count : Int), bs.take count, .data (bs.drop count) :: rest)

/-- The `while` loop of `perform_full_read`, with `total` bytes already in. -/
def perform_full_read_loop (n : Nat) (total : Nat) (buf : List Nat) (tr : List ReadEvent) :
    Int × List Nat × List ReadEvent :=
  if total < n then
    match sys_read tr (n - total) with
    | (r, bytes, tr1) =>
      if r = 0 then (0, buf, tr1)
      else if r < 0 then (-1, buf, tr1)
      else perform_full_read_loop n (total + r.toNat) (poke buf total bytes) tr1
  else ((total : Int), buf, tr)
termination_by n - total
decreasing_by
  simp_wf
  omega

/-- `ssize_t perform_full_read(void* buf, size_t n)`: the return value, the
buffer and the transport afterwards. -/
def perform_full_read (buf : List Nat) (n : Nat) (tr : List ReadEvent) :
    Int × List Nat × List ReadEvent :=
  perform_full_read_loop n 0 buf tr

/-- `write(settings.socket_fd, p, count)` against a script of results: a
positive entry is the number of bytes the transport is ready to take (at most
`count` are taken), any other entry is returned as it is.  A script that has
run out is a broken connection. -/
def sys_write (ws : List Int) (count : Nat) : Int × List Int :=
  match ws with
  | [] => (-1, [])
  | w :: rest => (if w ≤ 0 then w else min w (count : Int), rest)

/-- The outcome of `send_message`: its return value, the bytes the transport
accepted (in order), the result of every `write` issued (in order), and the
rest of the script. -/
structure SendResult where
  ok : Bool
  wire : List Nat
  results : List Int
  rest : List Int
  deriving DecidableEq, Repr

/-- The `while` loop of `send_message`, with `total` bytes already written. -/
def send_message_loop (msg : message_t) (total : Nat) (wire : List Nat) (results : List Int)
    (ws : List Int) : SendResult :=
  if total < SIZEOF_MESSAGE then
    match sys_write ws (SIZEOF_MESSAGE - total) with
    | (w, ws1) =>
      if w ≤ 0 then ⟨false, wire, results ++ [w], ws1⟩
      else
        send_message_loop msg (total + w.toNat)
          (wire ++ (msg.drop total).take w.toNat) (results ++ [w]) ws1
  else ⟨true, wire, results, ws⟩
termination_by SIZEOF_MESSAGE - total
decreasing_by
  simp_wf
  omega

/-- `bool send_message(const message_t* msg)`. -/
def send_message (msg : message_t) (ws : List Int) : SendResult :=
  send_message_loop msg 0 [] [] ws

/-- What `send_message` may leave behind for a record `msg`, a script `ws`
and the writes `results` made before the loop is entered. -/
def SendPost (msg : message_t) (ws : List Int) (results : List Int) (r : SendResult) : Prop :=
  (r.ok = true → r.wire = msg ∧ ∀ w ∈ r.results, 0 < w) ∧
  (r.ok = false → ∃ (pre : List Int) (w : Int),
      r.results = pre ++ [w] ∧ w ≤ 0 ∧ ∀ x ∈ pre, 0 < x) ∧
  r.wire = msg.take r.wire.length ∧
  results.length ≤ r.results.length ∧
  r.rest = ws.drop (r.results.length - results.length)

/-- The number of bytes taken over the writes with results `results`: a
result of zero or less takes none. -/
def accepted (results : List Int) : Nat := (results.map Int.toNat).sum

/-- Every result in `results` is what the transport gives for its script
entry: the `i`-th `write` is issued while bytes are still missing, asks for
the bytes still missing, and gets the answer of `sys_write` on the `i`-th
entry of the script `ws`. -/
def WritesJustified (ws : List Int) (results : List Int) : Prop :=
  ∀ (i : Nat) (r : Int), results[i]? = some r →
    accepted (results.take i) < SIZEOF_MESSAGE ∧
    r = (sys_write (ws.drop i) (SIZEOF_MESSAGE - accepted (results.take i))).1

/-- What the statement on `send_message` says of an outcome `r` for the
record `msg` and the script `ws`. -/
def SendSpec (msg : message_t) (ws : List Int) (r : SendResult) : Prop :=
  (r.ok = true ↔ ∀ w ∈ r.results, 0 < w) ∧
  (r.ok = false → ∃ (pre : List Int) (w : Int),
      r.results = pre ++ [w] ∧ w ≤ 0 ∧ ∀ x ∈ pre, 0 < x) ∧
  r.rest = ws.drop r.results.length ∧
  WritesJustified ws r.results ∧
  r.wire = msg.take (accepted r.results) ∧
  (r.ok = true → accepted r.results = SIZEOF_MESSAGE)

/-! ## History -/

/-- `History`: the array `messages[MAX_MESSAGES]` and `count`. -/
structure History where
  messages : List message_t
  count : Nat
  deriving DecidableEq, Repr

/-- `static History history = {0};`. -/
def History.empty : History := ⟨List.replicate MAX_MESSAGES zero_message, 0⟩

/-- The entries in use: `messages[0 .. count-1]`. -/
def History.stored (h : History) : List message_t := h.messages.take h.count

/-- `void add_to_history(message_t* msg)`. -/
def add_to_history (h : History) (msg : message_t) : History :=
  if h.count < MAX_MESSAGES then
    { messages := h.messages.set h.count msg, count := h.count + 1 }
  else
    let moved := poke h.messages 0 ((h.messages.drop 1).take (MAX_MESSAGES - 1))
    { messages := moved.set (MAX_MESSAGES - 1) msg, count := h.count }

/-- The invariant of the history after the messages `ms` have been added. -/
def HistoryInv (h : History) (ms : List message_t) : Prop :=
  h.messages.length = MAX_MESSAGES ∧ h.count = min ms.length MAX_MESSAGES ∧
    h.stored = ms.drop (ms.length - MAX_MESSAGES)

instance (h : History) (ms : List message_t) : Decidable (HistoryInv h ms) := by
  unfold HistoryInv; infer_instance

/-! ## Rendering -/

/-- One output call of the client, in the order the calls are made. -/
inductive Out where
  /-- Plain text: `fwrite(p, 1, k, stdout)` and the closing `printf("%s\n", p)`. -/
  | text (bytes : List Nat)
  /-- The alert: `printf("\a")`. -/
  | bell
  /-- A mention in red: `printf("%s%.*s%s", RED, n, mention, RESET)`. -/
  | highlight (bytes : List Nat)
  /-- The line head `[time] user: `; `own` is the colour choice of `draw_tui`. -/
  | header (timestamp : Nat) (user : List Nat) (own : Bool)
  /-- The line `[SYSTEM]: ...`. -/
  | system (bytes : List Nat)
  /-- The line `[DISCONNECT] ...`. -/
  | disconnect (bytes : List Nat)
  /-- On stderr: `Unknown message type %u`. -/
  | unknown (kind : Nat)
  /-- On stderr: `Invalid characters in message`. -/
  | invalid
  /-- The call `clear_screen()`. -/
  | clear
  /-- The prompt of `draw_tui`: cursor row and the input string; `none` for
  the string at the uninitialised `dummy` of `receive_thread`. -/
  | prompt (row : Int) (input : Option (List Nat))
  /-- A string read has left the object it started in: what is printed from
  here on is not given by the model. -/
  | overrun
  deriving DecidableEq, Repr

/-- `strstr(p, pattern)` on C strings: the offset of the first occurrence of
`pattern` in `p`, or `none` for a null result. -/
def strstr : List Nat → List Nat → Option Nat
  | [], pattern => if pattern = [] then some 0 else none
  | c :: cs, pattern =>
    if pattern.isPrefixOf (c :: cs) then some 0
    else (strstr cs pattern).map (fun k => k + 1)

/-- `snprintf(pattern, sizeof(pattern), "@%s", settings.username)` with
`char pattern[40]`: at most 39 characters are kept. -/
def mention_pattern (username : List Nat) : List Nat := (64 :: cstr username).take 39

/-- The mention loop `while ((mention = strstr(p, pattern))) ...` followed by
`printf("%s\n", p)`, as it stands in `receive_thread` and in `draw_tui`;
`p` is the string still to be printed. -/
def scan_mentions (quiet : Bool) (username : List Nat) (p : List Nat) : List Out :=
  match h : strstr p (mention_pattern username) with
  | some k =>
    [Out.text (p.take k)]
      ++ (if !quiet then [Out.bell] else [])
      ++ [Out.highlight ((p.drop k).take (mention_pattern username).length)]
      ++ scan_mentions quiet username (p.drop (k + (mention_pattern username).length))
  | none => [Out.text p]
termination_by p.length
decreasing_by
  simp_wf
  have hpat : 1 ≤ (mention_pattern username).length := by
    simp [mention_pattern, List.length_take]
  have hp : 1 ≤ p.length := by
    cases p with
    | nil =>
      have hne : mention_pattern username ≠ [] := by
        intro h0; rw [h0] at hpat; simp at hpat
      simp [strstr, hne] at h
    | cons c cs => simp
  omega

/-- Where the mentions are, in the words of the specification: the start
offsets of the occurrences of `pat` met when reading `b` left to right, an
occurrence being skipped over once counted so that no two overlap.  `skip` is
the number of characters still covered by the last occurrence and `off` the
offset of the head of the list. -/
def occurrences_from (pat : List Nat) : Nat → Nat → List Nat → List Nat
  | _, _, [] => []
  | skip + 1, off, _ :: cs => occurrences_from pat skip (off + 1) cs
  | 0, off, c :: cs =>
    if pat.isPrefixOf (c :: cs) then off :: occurrences_from pat (pat.length - 1) (off + 1) cs
    else occurrences_from pat 0 (off + 1) cs

/-- The non-overlapping left-to-right occurrences of `pat` in `b`. -/
def mention_occurrences (pat b : List Nat) : List Nat := occurrences_from pat 0 0 b

/-- The highlighted segments of an output, in order. -/
def highlights : List Out → List (List Nat)
  | [] => []
  | Out.highlight bs :: rest => bs :: highlights rest
  | _ :: rest => highlights rest

/-- The number of alerts in an output. -/
def bells (out : List Out) : Nat := out.count Out.bell

/-- The characters an output shows, text and highlighted segments alike. -/
def shown : List Out → List Nat
  | [] => []
  | Out.text bs :: rest => bs ++ shown rest
  | Out.highlight bs :: rest => bs ++ shown rest
  | _ :: rest => shown rest

/-! ## Process state -/

/-- `settings_t`, without the server address. -/
structure Settings where
  socket_fd : Int
  running : Bool
  quiet : Bool
  tui : Bool
  username : List Nat
  deriving DecidableEq, Repr

/-- Where `main` stands: in its input loop, at `pthread_join`, or returned. -/
inductive MainPc where
  | loop
  | joining
  | done
  deriving DecidableEq, Repr

/-- Where `receive_thread` stands: in its loop, or returned. -/
inductive RecvPc where
  | running
  | exited
  deriving DecidableEq, Repr

/-- The state of the process once the socket is connected: the globals
`settings`, `disconnected_by_server` and `history`, the locals `input` and
`pos` of `main`, the two program counters, and the surroundings: the height
of the terminal, the inbound transport, every record handed to a `write` on
the socket (`sent`) and the output calls made (`out`).  `fault` records a
store outside `input`. -/
structure Client where
  settings : Settings
  disconnected_by_server : Bool
  history : History
  input : List Nat
  pos : Nat
  fault : Bool
  main_pc : MainPc
  recv_pc : RecvPc
  term_rows : Int
  transport : List ReadEvent
  sent : List message_t
  out : List Out
  deriving DecidableEq, Repr

/-- Print with a string that was read, or stop at a read that left its object. -/
def str_or_overrun (str : Option (List Nat)) (f : List Nat → List Out) : List Out :=
  match str with
  | some b => f b
  | none => [Out.overrun]

/-- The memory from `history.messages[i]` to the end of `history`: the
entries from `i` on, each in full, then the `int count` (the packed records
leave no padding). -/
def history_from (e : Endian) (h : History) (i : Nat) : List Nat :=
  (h.messages.drop i).flatten ++ store32 e h.count

/-- The output of `draw_tui` for the entry `m` that starts the memory `mem`
(`mem` runs to the end of `history`).  `own` is `strcmp(m->username,
settings.username) == 0`, which reads no further than the end of the local
user name. -/
def draw_message (e : Endian) (s : Settings) (mem : List Nat) : List Out :=
  if ntohl e (load32 e mem) = MT_MESSAGE_RECV then
    str_or_overrun (cstr_at mem 8) (fun user =>
      Out.header (ntohl e (load32 e (mem.drop 4))) user
          ((cstr s.username ++ [0]).isPrefixOf (mem.drop 8))
        :: str_or_overrun (cstr_at mem 40) (scan_mentions s.quiet s.username))
  else if ntohl e (load32 e mem) = MT_SYSTEM then
    str_or_overrun (cstr_at mem 40) (fun b => [Out.system b])
  else if ntohl e (load32 e mem) = MT_DISCONNECT then
    str_or_overrun (cstr_at mem 40) (fun b => [Out.disconnect b])
  else []

/-- `void draw_tui(const char* input)`: the output calls it makes, for the
entries `start .. count - 1`; `input` is the string at the argument, `none`
when the argument points to uninitialised memory. -/
def draw_tui (e : Endian) (c : Client) (input : Option (List Nat)) : List Out :=
  let rows : Int := c.term_rows - 2
  let start : Int := if (c.history.count : Int) > rows then (c.history.count : Int) - rows else 0
  [Out.clear]
    ++ ((List.range c.history.count).drop start.toNat).flatMap
        (fun i => draw_message e c.settings (history_from e c.history i))
    ++ [Out.prompt (rows + 1) input]

/-- What `receive_thread` does with a record it has read in full: in
full-screen mode `add_to_history` and `draw_tui(dummy)`, in line mode the
`switch` on the kind, with the strings read from the local `msg`. -/
def process_message (e : Endian) (c : Client) (msg : message_t) : Client :=
  if c.settings.tui then
    let c := { c with history := add_to_history c.history msg }
    { c with out := c.out ++ draw_tui e c none }
  else
    let type := ntohl e (get_type e msg)
    if type = MT_MESSAGE_RECV then
      { c with out := c.out
          ++ str_or_overrun (username_str msg) (fun user =>
              Out.header (ntohl e (get_timestamp e msg)) user false
                :: str_or_overrun (message_str msg)
                    (scan_mentions c.settings.quiet c.settings.username)) }
    else if type = MT_SYSTEM then
      { c with out := c.out ++ str_or_overrun (message_str msg) (fun b => [Out.system b]) }
    else if type = MT_DISCONNECT then
      { c with out := c.out ++ str_or_overrun (message_str msg) (fun b => [Out.disconnect b]),
               disconnected_by_server := true,
               settings.running := false }
    else
      { c with out := c.out ++ [Out.unknown type] }

/-- One turn of `while (settings.running)` in `receive_thread`: the test and,
when it holds, the body: `perform_full_read` into a zeroed record, the exit on
a result `<= 0`, else the handling of the record. -/
def receive_iter (e : Endian) (c : Client) : Client :=
  if c.recv_pc = RecvPc.exited then c
  else if c.settings.running then
    match perform_full_read zero_message SIZEOF_MESSAGE c.transport with
    | (r, msg, tr) =>
      let c := { c with transport := tr }
      if r ≤ 0 then
        { c with settings.running := false, recv_pc := RecvPc.exited }
      else process_message e c msg
  else { c with recv_pc := RecvPc.exited }

/-- `void handle_signal(int sig)`. -/
def handle_signal (e : Endian) (c : Client) : Client :=
  let c := { c with settings.running := false }
  if c.settings.socket_fd > 0 then { c with sent := c.sent ++ [build_logout e] }
  else c

/-- `isprint` in the C locale. -/
def isprint (c : Nat) : Bool := 32 ≤ c && c ≤ 126

/-- The store `input[i] = v` into `char input[INPUT_BUFFER]`. -/
def store_input (c : Client) (i : Nat) (v : Nat) : Client :=
  if i < INPUT_BUFFER then { c with input := c.input.set i v }
  else { c with fault := true }

/-- The full-screen branch of the loop of `main` for one key `k`, up to the
call of `draw_tui`. -/
def tui_key (e : Endian) (now : Nat) (k : Nat) (c : Client) : Client :=
  if k = 10 then
    let c := store_input c c.pos 0
    let c :=
      if (cstr c.input).length > 0 then
        { c with sent := c.sent
            ++ [build_message e MT_MESSAGE_SEND now c.settings.username c.input] }
      else c
    let c := { c with pos := 0 }
    store_input c 0 0
  else if k = 127 then
    let c := if c.pos > 0 then { c with pos := c.pos - 1 } else c
    store_input c c.pos 0
  else if isprint k then
    let c := store_input c c.pos k
    let c := { c with pos := c.pos + 1 }
    store_input c c.pos 0
  else c

/-- The line left once the loop `line[--len] = 0` has cut the trailing
`\n` and `\r` characters. -/
def strip_eol (raw : List Nat) : List Nat :=
  (raw.reverse.dropWhile (fun b => b == 10 || b == 13)).reverse

/-- One turn of `while (settings.running && !disconnected_by_server)` in
`main`: the test, then the body for what standard input delivers (`none`: the
read fails or the input has ended; in full-screen mode the first byte is the
key).  When the loop is left, `settings.running = false` follows and `main`
waits at `pthread_join`. -/
def main_iter (e : Endian) (now : Nat) (stdin : Option (List Nat)) (c : Client) : Client :=
  if c.main_pc ≠ MainPc.loop then c
  else if c.settings.running && !c.disconnected_by_server then
    if c.settings.tui then
      match stdin with
      | some (k :: _) =>
        let c := tui_key e now k c
        { c with out := c.out ++ draw_tui e c (cstr_at c.input 0) }
      | _ => c
    else
      match stdin with
      | some (b :: bs) =>
        let line := strip_eol (b :: bs)
        if !validate_message line line.length then { c with out := c.out ++ [Out.invalid] }
        else
          { c with sent := c.sent
              ++ [build_message e MT_MESSAGE_SEND now c.settings.username line] }
      | _ => { c with settings.running := false, main_pc := MainPc.joining }
  else { c with settings.running := false, main_pc := MainPc.joining }

/-- The end of `main` once `pthread_join` has returned: the logout unless
`disconnected_by_server`, then the return. -/
def main_finish (e : Endian) (c : Client) : Client :=
  if c.main_pc = MainPc.joining ∧ c.recv_pc = RecvPc.exited then
    let c :=
      if !c.disconnected_by_server then { c with sent := c.sent ++ [build_logout e] }
      else c
    { c with main_pc := MainPc.done }
  else c

/-- What can happen next in the process. -/
inductive Event where
  /-- SIGINT or SIGTERM is delivered and `handle_signal` runs. -/
  | signal
  /-- The receiving thread makes one turn of its loop. -/
  | recv
  /-- The main thread makes one turn of its loop. -/
  | main (now : Nat) (stdin : Option (List Nat))
  /-- The main thread returns from `pthread_join` and finishes. -/
  | join
  deriving DecidableEq, Repr

/-- The step relation of the process, as a function of the event. -/
def step (e : Endian) (c : Client) : Event → Client
  | Event.signal => if c.main_pc = MainPc.done then c else handle_signal e c
  | Event.recv => receive_iter e c
  | Event.main now stdin => main_iter e now stdin c
  | Event.join => main_finish e c

/-- A run: the events taken in order. -/
def run (e : Endian) (c : Client) (evs : List Event) : Client := evs.foldl (step e) c

/-- The state `main` reaches before its loop: socket `fd` connected, user name
stored, `running` set, the login record sent, the receiving thread created. -/
def client_start (e : Endian) (fd : Int) (quiet tui : Bool) (username : List Nat) (now : Nat)
    (rows : Int) (transport : List ReadEvent) : Client :=
  let name := strncpy username 31 ++ [0]
  { settings := { socket_fd := fd, running := true, quiet := quiet, tui := tui, username := name },
    disconnected_by_server := false,
    history := History.empty,
    input := List.replicate INPUT_BUFFER 0,
    pos := 0,
    fault := false,
    main_pc := MainPc.loop,
    recv_pc := RecvPc.running,
    term_rows := rows,
    transport := transport,
    sent := [build_login e now name],
    out := [] }

/-- The number of logout records among those handed to the socket. -/
def logout_count (e : Endian) (c : Client) : Nat :=
  (c.sent.filter (fun m => ntohl e (get_type e m) == MT_LOGOUT)).length

/-- What the main loop needs to keep turning in full-screen mode. -/
def TuiLive (c : Client) : Prop :=
  c.main_pc = MainPc.loop ∧ c.settings.running = true ∧ c.disconnected_by_server = false ∧
    c.settings.tui = true

instance (c : Client) : Decidable (TuiLive c) := by
  unfold TuiLive; infer_instance

/-- The invariant of runs without a signal: no logout record has been handed
to the socket before `main` is done, and at most one afterwards. -/
def LogoutInv (e : Endian) (c : Client) : Prop :=
  (c.main_pc ≠ MainPc.done → logout_count e c = 0) ∧ logout_count e c ≤ 1

instance (e : Endian) (c : Client) : Decidable (LogoutInv e c) := by
  unfold LogoutInv; infer_instance

/-- A `Receive` record as a peer may send it: kind 10, time 0, user `carol`,
and a body of 1024 bytes `x` that fills its field and leaves no NUL. -/
def full_body_record : message_t :=
  [0, 0, 0, 10] ++ ([0, 0, 0, 0] ++ (([99, 97, 114, 111, 108] ++ List.replicate 27 0)
    ++ List.replicate 1024 120))

/-- A record whose first four bytes, the `type` field, spell `@bob`; all its
other bytes are zero. -/
def at_bob_record : message_t := [64, 98, 111, 98] ++ List.replicate 1060 0

/-! # Theorems -/

/-! ## Lemmas about `validate_message` -/

theorem validate_loop_iff (msg : List Nat) (len : Nat) (i : Nat) :
    validate_loop msg len i = true ↔
      ∀ j, i ≤ j → j < len → 9 ≤ msg.getD j 0 % 256 ∧ msg.getD j 0 % 256 ≤ 126 := by
  induction i using validate_loop.induct msg len with
  | case1 i hi hbad =>
    rw [validate_loop]
    simp only [hi, hbad, if_true]
    constructor
    · intro h; exact absurd h (by simp)
    · intro h
      have := h i (le_refl _) hi
      simp only [Bool.or_eq_true, decide_eq_true_eq] at hbad
      omega
  | case2 i hi hok ih =>
    rw [validate_loop]
    simp only [hi, hok, if_true, Bool.false_eq_true, if_false]
    rw [ih]
    simp only [Bool.or_eq_true, decide_eq_true_eq, not_or, not_lt] at hok
    constructor
    · intro h j hij hj
      rcases Nat.eq_or_lt_of_le hij with rfl | hlt
      · omega
      · exact h j hlt hj
    · intro h j hij hj
      exact h j (by omega) hj
  | case3 i hi =>
    rw [validate_loop]
    simp only [hi, if_false]
    constructor
    · intro _ j hij hj; omega
    · intro _; trivial

theorem validate_message_iff_getD (msg : List Nat) (len : Nat) :
    validate_message msg len = true ↔
      1 ≤ len ∧ len ≤ 1023 ∧
        ∀ j, j < len → 9 ≤ msg.getD j 0 % 256 ∧ msg.getD j 0 % 256 ≤ 126 := by
  unfold validate_message
  by_cases h : len < 1 ∨ len > 1023
  · have : (decide (len < 1) || decide (len > 1023)) = true := by simpa using h
    rw [if_pos this]
    constructor
    · intro h'; exact absurd h' (by simp)
    · intro h'; omega
  · have : ¬ ((decide (len < 1) || decide (len > 1023)) = true) := by simpa using h
    rw [if_neg this, validate_loop_iff]
    constructor
    · intro h'
      exact ⟨by omega, by omega, fun j hj => h' j (Nat.zero_le _) hj⟩
    · intro h' j _ hj
      exact h'.2.2 j hj

theorem mem_take_iff_getD (msg : List Nat) (len : Nat) (hlen : len ≤ msg.length) (b : Nat) :
    b ∈ msg.take len ↔ ∃ j, j < len ∧ msg.getD j 0 = b := by
  rw [List.mem_iff_getElem?]
  constructor
  · rintro ⟨j, hj⟩
    by_cases hjl : j < len
    · rw [List.getElem?_take_of_lt hjl] at hj
      exact ⟨j, hjl, by simp [hj]⟩
    · rw [List.getElem?_take_eq_none (by omega)] at hj
      exact absurd hj (by simp)
  · rintro ⟨j, hj, rfl⟩
    have hjm : j < msg.length := by omega
    refine ⟨j, ?_⟩
    rw [List.getElem?_take_of_lt hj]
    simp [List.getElem?_eq_getElem hjm]

theorem validate_message_iff_take (msg : List Nat) (len : Nat)
    (hlen : len ≤ msg.length) (hb : ∀ b ∈ msg, b < 256) :
    validate_message msg len = true ↔
      1 ≤ len ∧ len ≤ 1023 ∧ ∀ b ∈ msg.take len, 9 ≤ b ∧ b ≤ 126 := by
  rw [validate_message_iff_getD]
  have hmod : ∀ j, j < len → msg.getD j 0 % 256 = msg.getD j 0 := by
    intro j hj
    apply Nat.mod_eq_of_lt
    apply hb
    have hjm : j < msg.length := by omega
    simp [List.getD_eq_getElem?_getD, List.getElem?_eq_getElem hjm]
  constructor
  · rintro ⟨h1, h2, h3⟩
    refine ⟨h1, h2, ?_⟩
    intro b hbm
    obtain ⟨j, hj, rfl⟩ := (mem_take_iff_getD msg len hlen b).1 hbm
    have := h3 j hj
    rw [hmod j hj] at this
    exact this
  · rintro ⟨h1, h2, h3⟩
    refine ⟨h1, h2, ?_⟩
    intro j hj
    rw [hmod j hj]
    exact h3 _ ((mem_take_iff_getD msg len hlen _).2 ⟨j, hj, rfl⟩)

/-! ## Claims on `validate_message` -/

/-- C4 (as the code has it): for a buffer of at least `len` bytes,
`validate_message msg len` is true exactly when `1 ≤ len ≤ 1023` and each of
the first `len` bytes lies in `9..126`; so bytes `0..8` and bytes `≥ 127` are
rejected, while the control bytes `10..31` pass. -/
theorem validate_message_iff (msg : List Nat) (len : Nat)
    (hlen : len ≤ msg.length) (hb : ∀ b ∈ msg, b < 256) :
    validate_message msg len = true ↔
      1 ≤ len ∧ len ≤ 1023 ∧ ∀ b ∈ msg.take len, 9 ≤ b ∧ b ≤ 126 :=
  validate_message_iff_take msg len hlen hb

/-- The rule at work on the body `h<tab>i`. -/
theorem validate_message_iff_witness :
    3 ≤ [104, 9, 105].length ∧ (∀ b ∈ [104, 9, 105], b < 256) ∧
      (validate_message [104, 9, 105] 3 = true ↔
        1 ≤ 3 ∧ 3 ≤ 1023 ∧ ∀ b ∈ [104, 9, 105].take 3, 9 ≤ b ∧ b ≤ 126) :=
  ⟨by decide, by decide, validate_message_iff [104, 9, 105] 3 (by decide) (by decide)⟩

/-- C4 as written fails: the one-byte body `ESC` (27) is accepted although 27
is neither a tab nor in `32..126`. -/
theorem validate_message_accepts_escape :
    ¬ (validate_message [27] 1 = true ↔
        1 ≤ 1 ∧ 1 ≤ 1023 ∧ ∀ b ∈ [27].take 1, b = 9 ∨ (32 ≤ b ∧ b ≤ 126)) := by
  have hacc : validate_message [27] 1 = true :=
    (validate_message_iff_take [27] 1 (by decide) (by decide)).2 (by decide)
  intro h
  have := (h.1 hacc).2.2 27 (by decide)
  omega

/-- C5: `validate_message` rejects length 0 and every length from 1024 on,
rejects every body holding a byte 0, 5 or 200, and accepts every body of
length `1..1023` made of ASCII letters, digits and spaces. -/
theorem validate_message_cases (msg : List Nat) (len : Nat)
    (hlen : len ≤ msg.length) (hb : ∀ b ∈ msg, b < 256) :
    (len = 0 → validate_message msg len = false) ∧
    (1024 ≤ len → validate_message msg len = false) ∧
    ((0 ∈ msg.take len ∨ 5 ∈ msg.take len ∨ 200 ∈ msg.take len) →
      validate_message msg len = false) ∧
    (1 ≤ len → len ≤ 1023 → (∀ b ∈ msg.take len, isLetterDigitSpace b) →
      validate_message msg len = true) := by
  have key := validate_message_iff_take msg len hlen hb
  have hfalse : ∀ {P : Prop}, (validate_message msg len = true → P) → ¬ P →
      validate_message msg len = false := by
    intro P h1 h2
    cases hv : validate_message msg len with
    | false => rfl
    | true => exact absurd (h1 hv) h2
  refine ⟨?_, ?_, ?_, ?_⟩
  · intro h0
    exact hfalse (fun hv => (key.1 hv).1) (by omega)
  · intro h0
    exact hfalse (fun hv => (key.1 hv).2.1) (by omega)
  · intro hmem
    apply hfalse (fun hv => (key.1 hv).2.2)
    intro hall
    rcases hmem with h | h | h
    · have := hall 0 h; omega
    · have := hall 5 h; omega
    · have := hall 200 h; omega
  · intro h1 h2 hall
    apply key.2
    refine ⟨h1, h2, ?_⟩
    intro b hbm
    have := hall b hbm
    unfold isLetterDigitSpace at this
    omega

/-- The body `a1 Z` is accepted; a body holding a NUL is rejected. -/
theorem validate_message_cases_witness :
    validate_message [97, 49, 32, 90] 4 = true ∧ validate_message [97, 0, 32] 3 = false :=
  ⟨(validate_message_cases [97, 49, 32, 90] 4 (by decide) (by decide)).2.2.2
      (by decide) (by decide) (by decide),
   (validate_message_cases [97, 0, 32] 3 (by decide) (by decide)).2.2.1 (by decide)⟩

/-! ## History -/

theorem MAX_MESSAGES_pos : 0 < MAX_MESSAGES := by decide

theorem historyInv_empty : HistoryInv History.empty [] := by
  refine ⟨?_, ?_, ?_⟩
  · simp [History.empty]
  · simp [History.empty]
  · simp [History.stored, History.empty]

theorem historyInv_add (h : History) (ms : List message_t) (m : message_t)
    (inv : HistoryInv h ms) : HistoryInv (add_to_history h m) (ms ++ [m]) := by
  obtain ⟨hlen, hcount, hstored⟩ := inv
  have hN := MAX_MESSAGES_pos
  unfold History.stored at hstored
  unfold add_to_history
  by_cases hc : h.count < MAX_MESSAGES
  · rw [if_pos hc]
    have hms : ms.length = h.count := by omega
    have hsub : ms.length - MAX_MESSAGES = 0 := by omega
    rw [hsub, List.drop_zero] at hstored
    refine ⟨?_, ?_, ?_⟩
    · simp [hlen]
    · simp only [List.length_append, List.length_singleton]; omega
    · simp only [History.stored, List.length_append, List.length_singleton]
      have hsub2 : ms.length + 1 - MAX_MESSAGES = 0 := by omega
      rw [hsub2, List.drop_zero, List.set_eq_take_append_cons_drop, if_pos (by omega),
        List.take_append_eq_append_take, List.take_take, hstored]
      have h1 : min (h.count + 1) h.count = h.count := by omega
      have h2 : h.count + 1 - ms.length = 1 := by omega
      rw [h1, hstored, h2]
      rfl
  · rw [if_neg hc]
    have hcN : h.count = MAX_MESSAGES := by omega
    have hmsN : MAX_MESSAGES ≤ ms.length := by omega
    have hall : h.messages = ms.drop (ms.length - MAX_MESSAGES) := by
      rw [← hstored, hcN, ← hlen, List.take_length]
    have hmoved : poke h.messages 0 ((h.messages.drop 1).take (MAX_MESSAGES - 1))
        = h.messages.drop 1 ++ h.messages.drop (MAX_MESSAGES - 1) := by
      have ht : (h.messages.drop 1).take (MAX_MESSAGES - 1) = h.messages.drop 1 := by
        apply List.take_of_length_le
        rw [List.length_drop]; omega
      unfold poke
      rw [ht]
      simp only [List.take_zero, List.nil_append, Nat.zero_add, List.length_drop, hlen]
    have hset : (h.messages.drop 1 ++ h.messages.drop (MAX_MESSAGES - 1)).set
        (MAX_MESSAGES - 1) m = h.messages.drop 1 ++ [m] := by
      have hl1 : (h.messages.drop 1).length = MAX_MESSAGES - 1 := by
        rw [List.length_drop]; omega
      have hl2 : (h.messages.drop (MAX_MESSAGES - 1)).length = 1 := by
        rw [List.length_drop]; omega
      obtain ⟨x, hx⟩ := List.length_eq_one.1 hl2
      rw [hx, List.set_eq_take_append_cons_drop,
        if_pos (by simp only [List.length_append, hl1, List.length_singleton]; omega)]
      have hd : List.drop (MAX_MESSAGES - 1 + 1) (h.messages.drop 1 ++ [x]) = [] := by
        apply List.drop_eq_nil_of_le
        simp only [List.length_append, hl1, List.length_singleton]; omega
      rw [List.take_left' hl1, hd]
    simp only [hmoved, hset]
    refine ⟨?_, ?_, ?_⟩
    · simp only [List.length_append, List.length_drop, hlen, List.length_singleton]; omega
    · simp only [List.length_append, List.length_singleton]; omega
    · simp only [History.stored, List.length_append, List.length_singleton]
      rw [hcN, List.take_of_length_le
        (by simp only [List.length_append, List.length_drop, hlen, List.length_singleton]; omega)]
      rw [hall, List.drop_drop]
      have he : ms.length + 1 - MAX_MESSAGES = ms.length - MAX_MESSAGES + 1 := by omega
      rw [he, List.drop_append_of_le_length (by omega)]

theorem historyInv_foldl (ms : List message_t) :
    ∀ (h : History) (pre : List message_t), HistoryInv h pre →
      HistoryInv (ms.foldl add_to_history h) (pre ++ ms) := by
  induction ms with
  | nil => intro h pre inv; simpa using inv
  | cons m rest ih =>
    intro h pre inv
    have := ih (add_to_history h m) (pre ++ [m]) (historyInv_add h pre m inv)
    simpa using this

/-- C6: after any `k` messages are added with `add_to_history` to the empty
history, `count` is `min k MAX_MESSAGES` (hence at most `MAX_MESSAGES`) and
the stored entries are the last `min k MAX_MESSAGES` messages in arrival
order; with `MAX_MESSAGES + 1` messages only the oldest one is gone. -/
theorem add_to_history_fifo (ms : List message_t) :
    (ms.foldl add_to_history History.empty).count = min ms.length MAX_MESSAGES ∧
    (ms.foldl add_to_history History.empty).count ≤ MAX_MESSAGES ∧
    (ms.foldl add_to_history History.empty).stored
      = ms.drop (ms.length - min ms.length MAX_MESSAGES) ∧
    (∀ (oldest : message_t) (rest : List message_t), ms = oldest :: rest →
      rest.length = MAX_MESSAGES →
      (ms.foldl add_to_history History.empty).stored = rest) := by
  have inv := historyInv_foldl ms History.empty [] historyInv_empty
  rw [List.nil_append] at inv
  obtain ⟨_, hcount, hstored⟩ := inv
  have hd : ms.length - min ms.length MAX_MESSAGES = ms.length - MAX_MESSAGES := by omega
  refine ⟨hcount, by omega, by rw [hd]; exact hstored, ?_⟩
  intro oldest rest hms hrest
  rw [hstored, hms]
  have : (oldest :: rest).length - MAX_MESSAGES = 1 := by
    rw [List.length_cons, hrest]; omega
  rw [this]
  rfl

/-- A logout record followed by `MAX_MESSAGES` zeroed records: the logout
record is the one that is gone. -/
theorem add_to_history_fifo_witness :
    ((build_logout Endian.big :: List.replicate MAX_MESSAGES zero_message).foldl
        add_to_history History.empty).stored
      = List.replicate MAX_MESSAGES zero_message :=
  (add_to_history_fifo (build_logout Endian.big :: List.replicate MAX_MESSAGES zero_message)).2.2.2
    (build_logout Endian.big) (List.replicate MAX_MESSAGES zero_message) rfl
    (List.length_replicate _ _)

/-! ## Wire format -/

theorem store32_length (e : Endian) (x : Nat) : (store32 e x).length = 4 := by
  cases e <;> rfl

theorem strncpy_length (src : List Nat) (n : Nat) : (strncpy src n).length = n := by
  simp only [strncpy, List.length_append, List.length_take, List.length_replicate]
  omega

theorem uint32_bytes (x : Nat) (hx : x < 2 ^ 32) :
    ∃ b0 b1 b2 b3 : Nat, b0 < 256 ∧ b1 < 256 ∧ b2 < 256 ∧ b3 < 256 ∧
      x = b0 + 256 * b1 + 65536 * b2 + 16777216 * b3 :=
  ⟨x % 256, x / 256 % 256, x / 65536 % 256, x / 16777216,
    by omega, by omega, by omega, by omega, by omega⟩

theorem bytes_of_sum (b0 b1 b2 b3 : Nat) (h0 : b0 < 256) (h1 : b1 < 256) (h2 : b2 < 256)
    (h3 : b3 < 256) :
    (b0 + 256 * b1 + 65536 * b2 + 16777216 * b3) % 256 = b0 ∧
    (b0 + 256 * b1 + 65536 * b2 + 16777216 * b3) / 256 % 256 = b1 ∧
    (b0 + 256 * b1 + 65536 * b2 + 16777216 * b3) / 65536 % 256 = b2 ∧
    (b0 + 256 * b1 + 65536 * b2 + 16777216 * b3) / 16777216 % 256 = b3 :=
  ⟨by omega, by omega, by omega, by omega⟩

theorem bswap32_sum (b0 b1 b2 b3 : Nat) (h0 : b0 < 256) (h1 : b1 < 256) (h2 : b2 < 256)
    (h3 : b3 < 256) :
    bswap32 (b0 + 256 * b1 + 65536 * b2 + 16777216 * b3)
      = b3 + 256 * b2 + 65536 * b1 + 16777216 * b0 := by
  obtain ⟨e0, e1, e2, e3⟩ := bytes_of_sum b0 b1 b2 b3 h0 h1 h2 h3
  unfold bswap32
  rw [e0, e1, e2, e3]
  omega

theorem store32_htonl (e : Endian) (x : Nat) (hx : x < 2 ^ 32) :
    store32 e (htonl e x) = [x / 16777216 % 256, x / 65536 % 256, x / 256 % 256, x % 256] := by
  have hm : x % 2 ^ 32 = x := Nat.mod_eq_of_lt hx
  cases e
  · obtain ⟨b0, b1, b2, b3, h0, h1, h2, h3, rfl⟩ := uint32_bytes x hx
    obtain ⟨e0, e1, e2, e3⟩ := bytes_of_sum b0 b1 b2 b3 h0 h1 h2 h3
    obtain ⟨f0, f1, f2, f3⟩ := bytes_of_sum b3 b2 b1 b0 h3 h2 h1 h0
    simp only [store32, htonl, hm]
    rw [bswap32_sum b0 b1 b2 b3 h0 h1 h2 h3, e0, e1, e2, e3, f0, f1, f2, f3]
  · simp only [store32, htonl, hm]

theorem bswap32_lt (x : Nat) : bswap32 x < 2 ^ 32 := by
  unfold bswap32
  omega

theorem bswap32_bswap32 (x : Nat) (hx : x < 2 ^ 32) : bswap32 (bswap32 x) = x := by
  obtain ⟨b0, b1, b2, b3, h0, h1, h2, h3, rfl⟩ := uint32_bytes x hx
  rw [bswap32_sum b0 b1 b2 b3 h0 h1 h2 h3, bswap32_sum b3 b2 b1 b0 h3 h2 h1 h0]

theorem load32_store32 (e : Endian) (v : Nat) (hv : v < 2 ^ 32) (rest : List Nat) :
    load32 e (store32 e v ++ rest) = v := by
  cases e
  · simp only [store32, load32, List.cons_append, List.nil_append,
      List.getD_cons_zero, List.getD_cons_succ]
    omega
  · simp only [store32, load32, List.cons_append, List.nil_append,
      List.getD_cons_zero, List.getD_cons_succ]
    omega

theorem htonl_lt (e : Endian) (x : Nat) : htonl e x < 2 ^ 32 := by
  cases e
  · exact bswap32_lt _
  · exact Nat.mod_lt _ (by decide)

theorem ntohl_htonl (e : Endian) (x : Nat) (hx : x < 2 ^ 32) : ntohl e (htonl e x) = x := by
  have hm : x % 2 ^ 32 = x := Nat.mod_eq_of_lt hx
  cases e
  · simp only [ntohl, htonl, hm, Nat.mod_eq_of_lt (bswap32_lt x), bswap32_bswap32 x hx]
  · simp only [ntohl, htonl, hm]

theorem ntohl_load32_store32_htonl (e : Endian) (x : Nat) (hx : x < 2 ^ 32) (rest : List Nat) :
    ntohl e (load32 e (store32 e (htonl e x) ++ rest)) = x := by
  rw [load32_store32 e _ (htonl_lt e x), ntohl_htonl e x hx]

theorem cstr_of_no_nul (s : List Nat) (h : 0 ∉ s) : cstr s = s := by
  unfold cstr
  rw [List.takeWhile_eq_self_iff]
  intro b hb
  have : b ≠ 0 := fun h0 => h (h0 ▸ hb)
  simpa using this

theorem cstr_append_zeros (a : List Nat) (k : Nat) (b : List Nat) (h : 0 ∉ a) :
    cstr (a ++ (List.replicate k 0 ++ 0 :: b)) = a := by
  unfold cstr
  rw [List.takeWhile_append_of_pos]
  · have : List.takeWhile (fun b => b != 0) (List.replicate k 0 ++ 0 :: b) = [] := by
      cases k with
      | zero => simp [List.takeWhile]
      | succ k => simp [List.replicate_succ, List.takeWhile]
    rw [this, List.append_nil]
  · intro x hx
    have : x ≠ 0 := fun h0 => h (h0 ▸ hx)
    simpa using this

theorem poke_replicate_zero (n k : Nat) (d : List Nat) (h : k + d.length ≤ n) :
    poke (List.replicate n 0) k d
      = List.replicate k 0 ++ d ++ List.replicate (n - (k + d.length)) 0 := by
  unfold poke
  rw [List.take_replicate, List.drop_replicate]
  congr 3
  omega

theorem poke_append_left {α : Type} (a b d : List α) (k : Nat) (h : a.length ≤ k) :
    poke (a ++ b) k d = a ++ poke b (k - a.length) d := by
  unfold poke
  rw [List.take_append_eq_append_take, List.take_of_length_le h,
    List.drop_append_eq_append_drop, List.drop_eq_nil_of_le (by omega)]
  simp only [List.append_assoc, List.nil_append]
  have hk : k + d.length - a.length = k - a.length + d.length := by omega
  rw [hk]

/-- The record `main` builds, written out field by field. -/
theorem build_message_eq (e : Endian) (kind now : Nat) (username text : List Nat) :
    build_message e kind now username text
      = store32 e (htonl e kind) ++ (store32 e (htonl e now) ++
          (strncpy username 31 ++ (0 :: (strncpy text 1023 ++ [0])))) := by
  have l4k := store32_length e (htonl e kind)
  have l4n := store32_length e (htonl e now)
  have lu := strncpy_length username 31
  have lt := strncpy_length text 1023
  unfold build_message copy_message copy_username set_timestamp set_type zero_message
    SIZEOF_MESSAGE
  simp only []
  rw [poke_replicate_zero 1064 0 _ (by omega)]
  simp only [List.replicate_zero, List.nil_append, l4k, Nat.zero_add]
  rw [poke_append_left _ _ _ 4 (by omega), l4k, poke_replicate_zero _ 0 _ (by omega)]
  simp only [List.replicate_zero, List.nil_append, l4n, Nat.zero_add, Nat.sub_self]
  rw [poke_append_left _ _ _ 8 (by omega), l4k, poke_append_left _ _ _ 4 (by omega), l4n,
    poke_replicate_zero _ 0 _ (by omega)]
  simp only [List.replicate_zero, List.nil_append, lu, Nat.zero_add, Nat.sub_self]
  rw [poke_append_left _ _ _ 40 (by omega), l4k, poke_append_left _ _ _ 36 (by omega), l4n,
    poke_append_left _ _ _ 32 (by omega), lu, poke_replicate_zero _ 1 _ (by omega)]
  simp only [lt]
  rfl

theorem cstr_at_zeros (mem : List Nat) (off : Nat) (a : List Nat) (k : Nat) (b : List Nat)
    (h : mem.drop off = a ++ (List.replicate k 0 ++ 0 :: b)) (ha : 0 ∉ a) :
    cstr_at mem off = some a := by
  unfold cstr_at
  rw [h, if_pos (by simp), cstr_append_zeros a k b ha]

theorem decode_fields (e : Endian) (kind now : Nat) (hk : kind < 2 ^ 32) (hn : now < 2 ^ 32)
    (u : List Nat) (ku : Nat) (v : List Nat) (kv : Nat) (hu : 0 ∉ u) (hv : 0 ∉ v)
    (hlen : u.length + ku = 31) :
    decode e (store32 e (htonl e kind) ++ (store32 e (htonl e now) ++
      (u ++ (List.replicate ku 0 ++ 0 :: (v ++ (List.replicate kv 0 ++ 0 :: []))))))
      = (kind, now, some u, some v) := by
  have l4k := store32_length e (htonl e kind)
  have l4n := store32_length e (htonl e now)
  unfold decode get_type get_timestamp username_str message_str
  rw [ntohl_load32_store32_htonl e kind hk, List.drop_left' l4k,
    ntohl_load32_store32_htonl e now hn]
  have d8 : ∀ rest : List Nat,
      List.drop 8 (store32 e (htonl e kind) ++ (store32 e (htonl e now) ++ rest)) = rest := by
    intro rest
    rw [← List.append_assoc]
    exact List.drop_left' (by rw [List.length_append, l4k, l4n])
  have d40 : List.drop 40 (store32 e (htonl e kind) ++ (store32 e (htonl e now) ++
      (u ++ (List.replicate ku 0 ++ 0 :: (v ++ (List.replicate kv 0 ++ 0 :: []))))))
      = v ++ (List.replicate kv 0 ++ 0 :: []) := by
    rw [show (40 : Nat) = 8 + 32 from rfl, ← List.drop_drop, d8]
    have hre : u ++ (List.replicate ku 0 ++ 0 :: (v ++ (List.replicate kv 0 ++ 0 :: [])))
        = (u ++ List.replicate ku 0 ++ [0]) ++ (v ++ (List.replicate kv 0 ++ 0 :: [])) := by
      simp only [List.append_assoc, List.singleton_append]
    rw [hre, List.drop_left' (by
      simp only [List.length_append, List.length_replicate, List.length_singleton]; omega)]
  rw [cstr_at_zeros _ 8 u ku _ (d8 _) hu, cstr_at_zeros _ 40 v kv _ d40 hv]

theorem not_mem_take (s : List Nat) (n : Nat) (h : 0 ∉ s) : 0 ∉ s.take n :=
  fun hm => h (List.mem_of_mem_take hm)

theorem build_message_shape (e : Endian) (kind now : Nat) (username text : List Nat)
    (hu : 0 ∉ username) (ht : 0 ∉ text) :
    build_message e kind now username text
      = store32 e (htonl e kind) ++ (store32 e (htonl e now) ++
          (username.take 31 ++ (List.replicate (31 - username.length) 0 ++
            0 :: (text.take 1023 ++ (List.replicate (1023 - text.length) 0 ++ 0 :: []))))) := by
  rw [build_message_eq]
  unfold strncpy
  rw [cstr_of_no_nul username hu, cstr_of_no_nul text ht]
  simp only [List.append_assoc]

/-- C3: the record built from a kind and a timestamp below `2^32` and from
NUL-free user and body texts has 1064 bytes; its first eight bytes are the
kind and the timestamp, most significant byte first; the user field is the
first 31 bytes of the user text and the body field the first 1023 bytes of
the body text, each followed by zero bytes only; and decoding gives back the
kind, the timestamp and these two texts, both read inside the record: the texts themselves when they fit
(at most 31 and 1023 bytes, the last byte of a field being its NUL), their
prefixes of 31 and 1023 bytes when they are longer. -/
theorem build_message_roundtrip (e : Endian) (kind now : Nat) (username text : List Nat)
    (hk : kind < 2 ^ 32) (hn : now < 2 ^ 32) (hu : 0 ∉ username) (ht : 0 ∉ text) :
    (build_message e kind now username text).length = 1064 ∧
    (build_message e kind now username text).take 4
      = [kind / 16777216 % 256, kind / 65536 % 256, kind / 256 % 256, kind % 256] ∧
    ((build_message e kind now username text).drop 4).take 4
      = [now / 16777216 % 256, now / 65536 % 256, now / 256 % 256, now % 256] ∧
    ((build_message e kind now username text).drop 8).take 32
      = username.take 31 ++ List.replicate (32 - min 31 username.length) 0 ∧
    (build_message e kind now username text).drop 40
      = text.take 1023 ++ List.replicate (1024 - min 1023 text.length) 0 ∧
    decode e (build_message e kind now username text)
      = (kind, now, some (username.take 31), some (text.take 1023)) ∧
    (username.length ≤ 31 →
      (decode e (build_message e kind now username text)).2.2.1 = some username) ∧
    (text.length ≤ 1023 →
      (decode e (build_message e kind now username text)).2.2.2 = some text) := by
  have hdec : decode e (build_message e kind now username text)
      = (kind, now, some (username.take 31), some (text.take 1023)) := by
    rw [build_message_shape e kind now username text hu ht]
    exact decode_fields e kind now hk hn _ _ _ _ (not_mem_take _ _ hu) (not_mem_take _ _ ht)
      (by rw [List.length_take]; omega)
  have l4k := store32_length e (htonl e kind)
  have l4n := store32_length e (htonl e now)
  have lu : (username.take 31 ++ List.replicate (31 - username.length) 0 ++ [0]).length = 32 := by
    simp only [List.length_append, List.length_take, List.length_replicate,
      List.length_singleton]; omega
  have hzu : List.replicate (31 - username.length) 0 ++ [0]
      = List.replicate (32 - min 31 username.length) (0 : Nat) := by
    rw [← List.replicate_succ']; congr 1; omega
  have hzt : List.replicate (1023 - text.length) 0 ++ [0]
      = List.replicate (1024 - min 1023 text.length) (0 : Nat) := by
    rw [← List.replicate_succ']; congr 1; omega
  have hshape : build_message e kind now username text
      = store32 e (htonl e kind) ++ (store32 e (htonl e now) ++
          ((username.take 31 ++ List.replicate (31 - username.length) 0 ++ [0]) ++
            (text.take 1023 ++ (List.replicate (1023 - text.length) 0 ++ [0])))) := by
    rw [build_message_shape e kind now username text hu ht]
    simp only [List.append_assoc, List.singleton_append]
  refine ⟨?_, ?_, ?_, ?_, ?_, hdec, ?_, ?_⟩
  · rw [hshape]
    simp only [List.length_append, l4k, l4n, List.length_take, List.length_replicate,
      List.length_singleton]
    omega
  · rw [hshape, List.take_left' l4k, store32_htonl e kind hk]
  · rw [hshape, List.drop_left' l4k, List.take_left' l4n, store32_htonl e now hn]
  · rw [hshape, ← List.append_assoc, List.drop_left' (by rw [List.length_append, l4k, l4n]),
      List.take_left' lu, List.append_assoc, hzu]
  · rw [hshape, ← List.append_assoc, ← List.append_assoc,
      List.drop_left' (by
        rw [List.length_append, List.length_append, l4k, l4n, lu]), hzt]
  · intro hfit
    rw [hdec]
    exact congrArg some (List.take_of_length_le hfit)
  · intro hfit
    rw [hdec]
    exact congrArg some (List.take_of_length_le hfit)

/-- The round trip of a `Send` record of user `bob` with body `hi` on a
little-endian host. -/
theorem build_message_roundtrip_witness :
    decode Endian.little (build_message Endian.little 2 1700000000 [98, 111, 98] [104, 105])
      = (2, 1700000000, some [98, 111, 98], some [104, 105]) :=
  (build_message_roundtrip Endian.little 2 1700000000 [98, 111, 98] [104, 105]
    (by decide) (by decide) (by decide) (by decide)).2.2.2.2.2.1

/-! ## `perform_full_read` -/

theorem perform_full_read_loop_done (n total : Nat) (buf : List Nat) (tr : List ReadEvent)
    (h : ¬ total < n) : perform_full_read_loop n total buf tr = ((total : Int), buf, tr) := by
  rw [perform_full_read_loop, if_neg h]

theorem perform_full_read_loop_data (n total : Nat) (buf c : List Nat) (tr : List ReadEvent)
    (h : total < n) (hc : c ≠ []) (hfit : c.length ≤ n - total) :
    perform_full_read_loop n total buf (ReadEvent.data c :: tr)
      = perform_full_read_loop n (total + c.length) (poke buf total c) tr := by
  have hpos : 0 < c.length := List.length_pos.2 hc
  rw [perform_full_read_loop, if_pos h]
  simp only [sys_read, if_pos hfit]
  rw [if_neg (by omega), if_neg (by omega), Int.toNat_ofNat]

theorem perform_full_read_loop_split (n total : Nat) (buf c : List Nat) (tr : List ReadEvent)
    (h : total < n) (hbig : ¬ c.length ≤ n - total) :
    perform_full_read_loop n total buf (ReadEvent.data c :: tr)
      = ((n : Int), poke buf total (c.take (n - total)),
          ReadEvent.data (c.drop (n - total)) :: tr) := by
  rw [perform_full_read_loop, if_pos h]
  simp only [sys_read, if_neg hbig]
  rw [if_neg (by omega), if_neg (by omega), Int.toNat_ofNat,
    perform_full_read_loop_done _ _ _ _ (by omega)]
  congr 2
  omega

theorem perform_full_read_loop_closed (n total : Nat) (buf : List Nat) (h : total < n) :
    (perform_full_read_loop n total buf []).1 = 0 := by
  rw [perform_full_read_loop, if_pos h]
  simp [sys_read]

theorem perform_full_read_loop_empty (n total : Nat) (buf : List Nat) (tr : List ReadEvent)
    (h : total < n) :
    (perform_full_read_loop n total buf (ReadEvent.data [] :: tr)).1 = 0 := by
  rw [perform_full_read_loop, if_pos h]
  simp [sys_read]

theorem perform_full_read_loop_error (n total : Nat) (buf : List Nat) (tr : List ReadEvent)
    (h : total < n) :
    (perform_full_read_loop n total buf (ReadEvent.error :: tr)).1 = -1 := by
  rw [perform_full_read_loop, if_pos h]
  simp [sys_read]

theorem poke_length {α : Type} (buf d : List α) (k : Nat) (h : k + d.length ≤ buf.length) :
    (poke buf k d).length = buf.length := by
  unfold poke
  simp only [List.length_append, List.length_take, List.length_drop]
  omega

theorem poke_take {α : Type} (buf d : List α) (k : Nat) (h : k ≤ buf.length) :
    (poke buf k d).take (k + d.length) = buf.take k ++ d := by
  unfold poke
  exact List.take_left' (by rw [List.length_append, List.length_take]; omega)

theorem poke_drop {α : Type} (buf d : List α) (k n : Nat) (h : k ≤ buf.length)
    (hn : k + d.length ≤ n) : (poke buf k d).drop n = buf.drop n := by
  unfold poke
  have hl : (buf.take k ++ d).length = k + d.length := by
    rw [List.length_append, List.length_take]; omega
  have hsplit : n = (buf.take k ++ d).length + (n - (k + d.length)) := by omega
  rw [hsplit, List.drop_append, List.drop_drop, hl]

theorem perform_full_read_loop_chunks (n : Nat) (rest : List ReadEvent) :
    ∀ (chunks : List (List Nat)) (total : Nat) (buf : List Nat),
      (∀ c ∈ chunks, c ≠ []) → total ≤ n → n ≤ buf.length →
      n - total ≤ chunks.flatten.length →
      ∃ chunks1 : List (List Nat),
        perform_full_read_loop n total buf (chunks.map ReadEvent.data ++ rest)
          = ((n : Int), buf.take total ++ chunks.flatten.take (n - total) ++ buf.drop n,
              chunks1.map ReadEvent.data ++ rest) ∧
        chunks1.flatten = chunks.flatten.drop (n - total) := by
  intro chunks
  induction chunks with
  | nil =>
    intro total buf _ htn _ hlen
    have hEq : total = n := by
      simp only [List.flatten_nil, List.length_nil] at hlen; omega
    subst hEq
    refine ⟨[], ?_, by simp⟩
    rw [perform_full_read_loop_done _ _ _ _ (by omega)]
    simp
  | cons c cs ih =>
    intro total buf hne htn hbuf hlen
    have hc : c ≠ [] := hne c (List.mem_cons_self _ _)
    have hcs : ∀ x ∈ cs, x ≠ [] := fun x hx => hne x (List.mem_cons_of_mem _ hx)
    by_cases hlt : total < n
    · by_cases hfit : c.length ≤ n - total
      · have hlen1 : n - (total + c.length) ≤ cs.flatten.length := by
          simp only [List.flatten_cons, List.length_append] at hlen; omega
        obtain ⟨chunks1, hrun, hflat⟩ := ih (total + c.length) (poke buf total c) hcs
          (by omega) (by rw [poke_length _ _ _ (by omega)]; exact hbuf) hlen1
        refine ⟨chunks1, ?_, ?_⟩
        · rw [List.map_cons, List.cons_append, perform_full_read_loop_data _ _ _ _ _ hlt hc hfit,
            hrun, poke_take _ _ _ (by omega), poke_drop _ _ _ n (by omega) (by omega)]
          simp only [List.flatten_cons]
          rw [List.take_append_eq_append_take, List.take_of_length_le hfit]
          have : n - total - c.length = n - (total + c.length) := by omega
          simp only [List.append_assoc, this]
        · rw [hflat, List.flatten_cons]
          have : n - total = c.length + (n - (total + c.length)) := by omega
          rw [this, List.drop_append]
      · refine ⟨c.drop (n - total) :: cs, ?_, ?_⟩
        · rw [List.map_cons, List.cons_append, perform_full_read_loop_split _ _ _ _ _ hlt hfit]
          simp only [List.flatten_cons, List.map_cons, List.cons_append]
          rw [List.take_append_of_le_length (by omega)]
          unfold poke
          rw [List.length_take]
          have : total + min (n - total) c.length = n := by omega
          rw [this]
        · simp only [List.flatten_cons]
          rw [List.drop_append_of_le_length (by omega)]
    · have hEq : total = n := by omega
      subst hEq
      refine ⟨c :: cs, ?_, by simp⟩
      rw [perform_full_read_loop_done _ _ _ _ hlt]
      simp

theorem perform_full_read_loop_short (n : Nat) (tail : List ReadEvent)
    (P : Int × List Nat × List ReadEvent → Prop)
    (htail : ∀ (total : Nat) (buf : List Nat), total < n →
      P (perform_full_read_loop n total buf tail)) :
    ∀ (chunks : List (List Nat)) (total : Nat) (buf : List Nat),
      (∀ c ∈ chunks, c ≠ []) → total + chunks.flatten.length < n →
      P (perform_full_read_loop n total buf (chunks.map ReadEvent.data ++ tail)) := by
  intro chunks
  induction chunks with
  | nil =>
    intro total buf _ hlen
    simp only [List.flatten_nil, List.length_nil, Nat.add_zero] at hlen
    simpa using htail total buf hlen
  | cons c cs ih =>
    intro total buf hne hlen
    have hc : c ≠ [] := hne c (List.mem_cons_self _ _)
    have hcs : ∀ x ∈ cs, x ≠ [] := fun x hx => hne x (List.mem_cons_of_mem _ hx)
    simp only [List.flatten_cons, List.length_append] at hlen
    rw [List.map_cons, List.cons_append,
      perform_full_read_loop_data _ _ _ _ _ (by omega) hc (by omega)]
    exact ih _ _ hcs (by omega)

theorem receive_iter_of_read (e : Endian) (c : Client) (hpc : c.recv_pc = RecvPc.running)
    (hrun : c.settings.running = true) :
    receive_iter e c =
      if (perform_full_read zero_message SIZEOF_MESSAGE c.transport).1 ≤ 0 then
        { c with transport := (perform_full_read zero_message SIZEOF_MESSAGE c.transport).2.2,
                 settings.running := false, recv_pc := RecvPc.exited }
      else
        process_message e
          { c with transport := (perform_full_read zero_message SIZEOF_MESSAGE c.transport).2.2 }
          (perform_full_read zero_message SIZEOF_MESSAGE c.transport).2.1 := by
  unfold receive_iter
  rw [if_neg (by rw [hpc]; decide), if_pos hrun]

theorem receive_iter_of_fail (e : Endian) (c : Client) (hpc : c.recv_pc = RecvPc.running)
    (hrun : c.settings.running = true)
    (hr : (perform_full_read zero_message SIZEOF_MESSAGE c.transport).1 ≤ 0) :
    (receive_iter e c).history = c.history ∧ (receive_iter e c).out = c.out ∧
      (receive_iter e c).sent = c.sent ∧
      (receive_iter e c).disconnected_by_server = c.disconnected_by_server ∧
      (receive_iter e c).settings.running = false ∧
      (receive_iter e c).recv_pc = RecvPc.exited := by
  rw [receive_iter_of_read e c hpc hrun, if_pos hr]
  exact ⟨rfl, rfl, rfl, rfl, rfl, rfl⟩

theorem perform_full_read_ok (n : Nat) (buf : List Nat) (chunks : List (List Nat))
    (rest : List ReadEvent) (hne : ∀ c ∈ chunks, c ≠ []) (hbuf : n ≤ buf.length)
    (hlen : n ≤ chunks.flatten.length) :
    ∃ chunks1 : List (List Nat),
      perform_full_read buf n (chunks.map ReadEvent.data ++ rest)
        = ((n : Int), chunks.flatten.take n ++ buf.drop n,
            chunks1.map ReadEvent.data ++ rest) ∧
      chunks1.flatten = chunks.flatten.drop n := by
  obtain ⟨chunks1, hrun, hflat⟩ := perform_full_read_loop_chunks n rest chunks 0 buf hne
    (Nat.zero_le _) hbuf (by omega)
  refine ⟨chunks1, ?_, by simpa using hflat⟩
  unfold perform_full_read
  rw [hrun]
  simp

theorem perform_full_read_fail (n : Nat) (buf : List Nat) (chunks : List (List Nat))
    (rest : List ReadEvent) (hne : ∀ c ∈ chunks, c ≠ [])
    (hlen : chunks.flatten.length < n) :
    (perform_full_read buf n (chunks.map ReadEvent.data)).1 = 0 ∧
    (perform_full_read buf n (chunks.map ReadEvent.data ++ ReadEvent.data [] :: rest)).1 = 0 ∧
    (perform_full_read buf n (chunks.map ReadEvent.data ++ ReadEvent.error :: rest)).1 = -1 := by
  unfold perform_full_read
  refine ⟨?_, ?_, ?_⟩
  · have := perform_full_read_loop_short n [] (fun r => r.1 = 0)
      (fun total b h => perform_full_read_loop_closed n total b h) chunks 0 buf hne (by omega)
    simpa using this
  · exact perform_full_read_loop_short n (ReadEvent.data [] :: rest) (fun r => r.1 = 0)
      (fun total b h => perform_full_read_loop_empty n total b rest h) chunks 0 buf hne
      (by omega)
  · exact perform_full_read_loop_short n (ReadEvent.error :: rest) (fun r => r.1 = -1)
      (fun total b h => perform_full_read_loop_error n total b rest h) chunks 0 buf hne
      (by omega)

/-- C7: let the transport deliver the non-empty chunks `chunks` and then
`rest`, and let the buffer have room for `n` bytes.  If the chunks hold at
least `n` bytes, `perform_full_read` returns `n`, the buffer starts with the
first `n` bytes of the stream in order, and exactly these `n` bytes are used up
(what is left of the chunks is the stream from byte `n` on), so that
`receive_thread` handles the first 1064 bytes as its one record.  If the chunks
hold fewer than `n` bytes and the stream then ends or a `read` returns 0, the
result is 0; if a `read` then fails, the result is -1; and in these cases
`receive_thread` handles no record: history, output, records sent and the
disconnect flag are unchanged, `running` is cleared and the thread leaves. -/
theorem perform_full_read_resilient (n : Nat) (buf : List Nat) (chunks : List (List Nat))
    (rest : List ReadEvent) (hne : ∀ c ∈ chunks, c ≠ []) (hbuf : n ≤ buf.length) :
    (n ≤ chunks.flatten.length →
      ∃ chunks1 : List (List Nat),
        perform_full_read buf n (chunks.map ReadEvent.data ++ rest)
          = ((n : Int), chunks.flatten.take n ++ buf.drop n,
              chunks1.map ReadEvent.data ++ rest) ∧
        chunks1.flatten = chunks.flatten.drop n) ∧
    (chunks.flatten.length < n →
      (perform_full_read buf n (chunks.map ReadEvent.data)).1 = 0 ∧
      (perform_full_read buf n (chunks.map ReadEvent.data ++ ReadEvent.data [] :: rest)).1 = 0 ∧
      (perform_full_read buf n (chunks.map ReadEvent.data ++ ReadEvent.error :: rest)).1 = -1) ∧
    (∀ (e : Endian) (c : Client), c.recv_pc = RecvPc.running → c.settings.running = true →
      (SIZEOF_MESSAGE ≤ chunks.flatten.length →
        c.transport = chunks.map ReadEvent.data ++ rest →
        ∃ chunks1 : List (List Nat),
          receive_iter e c
            = process_message e { c with transport := chunks1.map ReadEvent.data ++ rest }
                (chunks.flatten.take SIZEOF_MESSAGE) ∧
          chunks1.flatten = chunks.flatten.drop SIZEOF_MESSAGE) ∧
      (chunks.flatten.length < SIZEOF_MESSAGE →
        (c.transport = chunks.map ReadEvent.data ∨
          c.transport = chunks.map ReadEvent.data ++ ReadEvent.data [] :: rest ∨
          c.transport = chunks.map ReadEvent.data ++ ReadEvent.error :: rest) →
        (receive_iter e c).history = c.history ∧ (receive_iter e c).out = c.out ∧
          (receive_iter e c).sent = c.sent ∧
          (receive_iter e c).disconnected_by_server = c.disconnected_by_server ∧
          (receive_iter e c).settings.running = false ∧
          (receive_iter e c).recv_pc = RecvPc.exited)) := by
  refine ⟨perform_full_read_ok n buf chunks rest hne hbuf,
    perform_full_read_fail n buf chunks rest hne, ?_⟩
  intro e c hpc hrun
  constructor
  · intro hlen htr
    obtain ⟨chunks1, hread, hflat⟩ := perform_full_read_ok SIZEOF_MESSAGE zero_message chunks
      rest hne (by simp [zero_message]) hlen
    refine ⟨chunks1, ?_, hflat⟩
    rw [receive_iter_of_read e c hpc hrun, htr, hread]
    have hz : List.drop SIZEOF_MESSAGE zero_message = [] :=
      List.drop_eq_nil_of_le (by simp [zero_message])
    rw [if_neg (by simp [SIZEOF_MESSAGE])]
    simp only [hz, List.append_nil]
  · intro hlen htr
    apply receive_iter_of_fail e c hpc hrun
    obtain ⟨h1, h2, h3⟩ := perform_full_read_fail SIZEOF_MESSAGE zero_message chunks rest hne hlen
    rcases htr with h | h | h
    · rw [h, h1]
    · rw [h, h2]
    · rw [h, h3]; decide

/-- Three bytes asked of a stream cut into chunks of 1, 1 and 2 bytes. -/
theorem perform_full_read_resilient_witness :
    ∃ chunks1 : List (List Nat),
      perform_full_read [0, 0, 0] 3 ([[7], [8], [9, 10]].map ReadEvent.data ++ [ReadEvent.error])
        = (((3 : Nat) : Int), [[7], [8], [9, 10]].flatten.take 3 ++ [0, 0, 0].drop 3,
            chunks1.map ReadEvent.data ++ [ReadEvent.error]) ∧
      chunks1.flatten = [[7], [8], [9, 10]].flatten.drop 3 :=
  (perform_full_read_resilient 3 [0, 0, 0] [[7], [8], [9, 10]] [ReadEvent.error]
    (by decide) (by decide)).1 (by decide)

/-! ## `send_message` -/

theorem send_message_loop_spec (msg : message_t) (hlen : msg.length = SIZEOF_MESSAGE) :
    ∀ (ws : List Int) (total : Nat) (wire : List Nat) (results : List Int),
      total ≤ SIZEOF_MESSAGE → wire = msg.take total → (∀ x ∈ results, 0 < x) →
      SendPost msg ws results (send_message_loop msg total wire results ws) := by
  intro ws
  induction ws with
  | nil =>
    intro total wire results htot hwire hres
    rw [send_message_loop]
    by_cases hlt : total < SIZEOF_MESSAGE
    · rw [if_pos hlt]
      simp only [sys_write]
      rw [if_pos (by decide)]
      refine ⟨fun h => absurd h (by simp), fun _ => ⟨results, -1, rfl, by decide, hres⟩, ?_, ?_, ?_⟩
      · simp only [hwire, List.length_take, List.take_take]
        congr 1; omega
      · simp
      · simp
    · rw [if_neg hlt]
      have hEq : total = msg.length := by omega
      refine ⟨fun _ => ⟨?_, hres⟩, fun h => absurd h (by simp), ?_, ?_, ?_⟩
      · simp only [hwire, hEq, List.take_length]
      · simp only [hwire, List.length_take, List.take_take]
        congr 1; omega
      · simp
      · simp
  | cons w rest ih =>
    intro total wire results htot hwire hres
    rw [send_message_loop]
    by_cases hlt : total < SIZEOF_MESSAGE
    · rw [if_pos hlt]
      simp only [sys_write]
      by_cases hw : w ≤ 0
      · rw [if_pos hw, if_pos hw]
        refine ⟨fun h => absurd h (by simp), fun _ => ⟨results, w, rfl, hw, hres⟩, ?_, ?_, ?_⟩
        · simp only [hwire, List.length_take, List.take_take]
          congr 1; omega
        · simp
        · simp
      · rw [if_neg hw]
        have hpos : ¬ (min w ((SIZEOF_MESSAGE - total : Nat) : Int) ≤ 0) := by omega
        rw [if_neg hpos]
        have hstep := ih (total + (min w ((SIZEOF_MESSAGE - total : Nat) : Int)).toNat)
          (wire ++ (msg.drop total).take (min w ((SIZEOF_MESSAGE - total : Nat) : Int)).toNat)
          (results ++ [min w ((SIZEOF_MESSAGE - total : Nat) : Int)])
          (by omega)
          (by rw [hwire, List.take_add])
          (by
            intro x hx
            rcases List.mem_append.1 hx with h | h
            · exact hres x h
            · rw [List.mem_singleton] at h; omega)
        obtain ⟨h1, h2, h3, h4, h5⟩ := hstep
        simp only [List.length_append, List.length_singleton] at h4 h5
        refine ⟨h1, h2, h3, by omega, ?_⟩
        rw [h5]
        have : (send_message_loop msg
            (total + (min w ((SIZEOF_MESSAGE - total : Nat) : Int)).toNat)
            (wire ++ List.take (min w ((SIZEOF_MESSAGE - total : Nat) : Int)).toNat
              (List.drop total msg))
            (results ++ [min w ((SIZEOF_MESSAGE - total : Nat) : Int)]) rest).results.length
              - results.length
            = ((send_message_loop msg
            (total + (min w ((SIZEOF_MESSAGE - total : Nat) : Int)).toNat)
            (wire ++ List.take (min w ((SIZEOF_MESSAGE - total : Nat) : Int)).toNat
              (List.drop total msg))
            (results ++ [min w ((SIZEOF_MESSAGE - total : Nat) : Int)]) rest).results.length
              - (results.length + 1)) + 1 := by omega
        rw [this, List.drop_succ_cons]
    · rw [if_neg hlt]
      have hEq : total = msg.length := by omega
      refine ⟨fun _ => ⟨?_, hres⟩, fun h => absurd h (by simp), ?_, ?_, ?_⟩
      · simp only [hwire, hEq, List.take_length]
      · simp only [hwire, List.length_take, List.take_take]
        congr 1; omega
      · simp
      · simp

theorem accepted_append (a b : List Int) : accepted (a ++ b) = accepted a + accepted b := by
  simp [accepted]

theorem writesJustified_snoc (ws results : List Int) (r : Int)
    (h : WritesJustified ws results)
    (hlt : accepted results < SIZEOF_MESSAGE)
    (hr : r = (sys_write (ws.drop results.length) (SIZEOF_MESSAGE - accepted results)).1) :
    WritesJustified ws (results ++ [r]) := by
  intro i x hx
  by_cases hi : i < results.length
  · rw [List.getElem?_append_left hi] at hx
    rw [List.take_append_of_le_length (by omega)]
    exact h i x hx
  · by_cases hi2 : i = results.length
    · subst hi2
      rw [List.getElem?_append_right (le_refl _), Nat.sub_self] at hx
      simp only [List.getElem?_cons_zero, Option.some.injEq] at hx
      subst hx
      rw [List.take_left]
      exact ⟨hlt, hr⟩
    · rw [List.getElem?_eq_none (by simp only [List.length_append, List.length_singleton]; omega)]
        at hx
      cases hx

theorem send_message_loop_trace (msg : message_t) (ws0 : List Int) :
    ∀ (ws : List Int) (total : Nat) (wire : List Nat) (results : List Int),
      ws0.drop results.length = ws → total = accepted results → total ≤ SIZEOF_MESSAGE →
      wire = msg.take total → WritesJustified ws0 results →
      WritesJustified ws0 (send_message_loop msg total wire results ws).results ∧
      (send_message_loop msg total wire results ws).wire
        = msg.take (accepted (send_message_loop msg total wire results ws).results) ∧
      ((send_message_loop msg total wire results ws).ok = true →
        accepted (send_message_loop msg total wire results ws).results = SIZEOF_MESSAGE) := by
  intro ws
  induction ws with
  | nil =>
    intro total wire results hws htot hle hwire hj
    rw [send_message_loop]
    by_cases hlt : total < SIZEOF_MESSAGE
    · rw [if_pos hlt]
      simp only [sys_write]
      rw [if_pos (by decide)]
      refine ⟨?_, ?_, fun h => absurd h (by simp)⟩
      · apply writesJustified_snoc ws0 results (-1) hj (by omega)
        rw [hws]; rfl
      · simp only [accepted_append, ← htot, hwire]
        simp [accepted]
    · rw [if_neg hlt]
      exact ⟨hj, by simp only [← htot, hwire], fun _ => by simp only [← htot]; omega⟩
  | cons w rest ih =>
    intro total wire results hws htot hle hwire hj
    rw [send_message_loop]
    by_cases hlt : total < SIZEOF_MESSAGE
    · rw [if_pos hlt]
      simp only [sys_write]
      by_cases hw : w ≤ 0
      · rw [if_pos hw, if_pos hw]
        refine ⟨?_, ?_, fun h => absurd h (by simp)⟩
        · apply writesJustified_snoc ws0 results w hj (by omega)
          rw [hws]; simp only [sys_write, if_pos hw]
        · simp only [accepted_append, ← htot, hwire]
          have : accepted [w] = 0 := by simp [accepted]; omega
          rw [this, Nat.add_zero]
      · rw [if_neg hw]
        have hpos : ¬ (min w ((SIZEOF_MESSAGE - total : Nat) : Int) ≤ 0) := by omega
        rw [if_neg hpos]
        have hacc : accepted (results ++ [min w ((SIZEOF_MESSAGE - total : Nat) : Int)])
            = total + (min w ((SIZEOF_MESSAGE - total : Nat) : Int)).toNat := by
          rw [accepted_append, ← htot]; simp [accepted]
        apply ih
        · rw [List.length_append, List.length_singleton, ← List.drop_drop, hws]
          rfl
        · exact hacc.symm
        · omega
        · rw [hwire, List.take_add]
        · apply writesJustified_snoc ws0 results _ hj (by omega)
          rw [hws, ← htot]; simp only [sys_write, if_neg hw]
    · rw [if_neg hlt]
      exact ⟨hj, by simp only [← htot, hwire], fun _ => by simp only [← htot]; omega⟩

theorem writes_prefix_agree (ws R R1 : List Int) (h : WritesJustified ws R)
    (h1 : WritesJustified ws R1) :
    ∀ i, i ≤ R.length → i ≤ R1.length → R.take i = R1.take i := by
  intro i
  induction i with
  | zero => intro _ _; rfl
  | succ i ih =>
    intro hi hi1
    have e0 := ih (by omega) (by omega)
    have g : R[i]? = some (R[i]) := List.getElem?_eq_getElem (by omega)
    have g1 : R1[i]? = some (R1[i]) := List.getElem?_eq_getElem (by omega)
    have a := (h i _ g).2
    have a1 := (h1 i _ g1).2
    rw [e0] at a
    rw [List.take_succ, List.take_succ, g, g1, e0, a, a1]

theorem sendSpec_early_positive (msg : message_t) (ws : List Int) (r : SendResult)
    (h : SendSpec msg ws r) :
    ∀ (j : Nat) (x : Int), r.results[j]? = some x → j + 1 < r.results.length → 0 < x := by
  intro j x hx hj
  obtain ⟨h1, h2, _⟩ := h
  cases hok : r.ok with
  | true => exact (h1.1 hok) x (List.mem_iff_getElem?.2 ⟨_, hx⟩)
  | false =>
    obtain ⟨pre, w, hres, _, hpre⟩ := h2 hok
    rw [hres] at hx hj
    simp only [List.length_append, List.length_singleton] at hj
    rw [List.getElem?_append_left (by omega)] at hx
    exact hpre x (List.mem_iff_getElem?.2 ⟨_, hx⟩)

theorem sendSpec_not_shorter (msg : message_t) (ws : List Int) (r r1 : SendResult)
    (h : SendSpec msg ws r) (h1 : SendSpec msg ws r1) :
    ¬ r.results.length < r1.results.length := by
  intro hlt
  have hpre := writes_prefix_agree ws r.results r1.results h.2.2.2.1 h1.2.2.2.1
    r.results.length (le_refl _) (by omega)
  rw [List.take_length] at hpre
  have hall : ∀ w ∈ r.results, 0 < w := by
    intro w hw
    obtain ⟨j, hj⟩ := List.mem_iff_getElem?.1 hw
    have hjl : j < r.results.length := by
      rcases List.getElem?_eq_some_iff.1 hj with ⟨hlt1, _⟩
      exact hlt1
    have hj1 : r1.results[j]? = some w := by
      rw [hpre] at hj
      rw [List.getElem?_take_of_lt hjl] at hj
      exact hj
    exact sendSpec_early_positive msg ws r1 h1 j w hj1 (by omega)
  have hok := h.1.2 hall
  have hfull := h.2.2.2.2.2 hok
  have g1 : r1.results[r.results.length]? = some (r1.results[r.results.length]) :=
    List.getElem?_eq_getElem hlt
  have := (h1.2.2.2.1 _ _ g1).1
  rw [← hpre] at this
  omega

/-- The statement fixes the outcome: two outcomes that meet it are equal. -/
theorem sendSpec_unique (msg : message_t) (ws : List Int) (r r1 : SendResult)
    (h : SendSpec msg ws r) (h1 : SendSpec msg ws r1) : r = r1 := by
  have hlen : r.results.length = r1.results.length := by
    have a := sendSpec_not_shorter msg ws r r1 h h1
    have b := sendSpec_not_shorter msg ws r1 r h1 h
    omega
  have hres : r.results = r1.results := by
    have := writes_prefix_agree ws r.results r1.results h.2.2.2.1 h1.2.2.2.1
      r.results.length (le_refl _) (by omega)
    rw [List.take_length, hlen, List.take_length] at this
    exact this
  have hok : r.ok = r1.ok := by
    have e1 := h.1
    have e2 := h1.1
    rw [hres] at e1
    cases hr : r.ok with
    | true =>
      have := e2.2 (e1.1 hr)
      rw [this]
    | false =>
      cases hr1 : r1.ok with
      | false => rfl
      | true =>
        have := e1.2 (e2.1 hr1)
        rw [hr] at this
        cases this
  have hwire : r.wire = r1.wire := by
    rw [h.2.2.2.2.1, h1.2.2.2.2.1, hres]
  have hrest : r.rest = r1.rest := by
    rw [h.2.2.1, h1.2.2.1, hres]
  cases r
  cases r1
  simp only [SendResult.mk.injEq]
  exact ⟨hok, hwire, hres, hrest⟩

theorem send_message_meets_spec (msg : message_t) (ws : List Int)
    (hlen : msg.length = SIZEOF_MESSAGE) : SendSpec msg ws (send_message msg ws) := by
  obtain ⟨h1, h2, _, _, h5⟩ := send_message_loop_spec msg hlen ws 0 [] []
    (Nat.zero_le _) (by simp) (by simp)
  obtain ⟨t1, t2, t3⟩ := send_message_loop_trace msg ws ws 0 [] [] rfl rfl (Nat.zero_le _)
    (by simp) (by intro i r hr; simp at hr)
  refine ⟨⟨fun h => (h1 h).2, ?_⟩, h2, by simpa using h5, t1, t2, t3⟩
  intro hall
  cases hok : (send_message msg ws).ok with
  | true => rfl
  | false =>
    obtain ⟨pre, w, hres, hw, _⟩ := h2 hok
    have hmem : w ∈ (send_message msg ws).results := by
      unfold send_message; rw [hres]; simp
    have := hall w hmem
    omega

/-- C8: for a record of `sizeof(message_t)` bytes and any script of write
results, `send_message` returns true exactly when every `write` it issued
returned a positive count, and then the bytes the transport took, in order,
are the record itself (each byte once) and the counts add up to its 1064
bytes; when it returns false, the last `write` issued is the first one that
returned zero or less.  Every `write` is issued while bytes are missing,
asks for the bytes still missing and returns what the transport answers
for its entry of the script, in script order; the bytes taken are the first
bytes of the record, as many as the counts say; one script entry is used
per `write` issued; and these conditions (`SendSpec`) leave no other outcome. -/
theorem send_message_spec (msg : message_t) (ws : List Int)
    (hlen : msg.length = SIZEOF_MESSAGE) :
    ((send_message msg ws).ok = true ↔ ∀ w ∈ (send_message msg ws).results, 0 < w) ∧
    ((send_message msg ws).ok = true →
      (send_message msg ws).wire = msg ∧ (send_message msg ws).wire.length = 1064) ∧
    ((send_message msg ws).ok = false → ∃ (pre : List Int) (w : Int),
      (send_message msg ws).results = pre ++ [w] ∧ w ≤ 0 ∧ ∀ x ∈ pre, 0 < x) ∧
    (send_message msg ws).wire = msg.take (send_message msg ws).wire.length ∧
    (send_message msg ws).rest = ws.drop (send_message msg ws).results.length ∧
    (∀ (i : Nat) (r : Int), (send_message msg ws).results[i]? = some r →
      accepted ((send_message msg ws).results.take i) < SIZEOF_MESSAGE ∧
      r = (sys_write (ws.drop i)
            (SIZEOF_MESSAGE - accepted ((send_message msg ws).results.take i))).1) ∧
    (send_message msg ws).wire = msg.take (accepted (send_message msg ws).results) ∧
    ((send_message msg ws).ok = true →
      accepted (send_message msg ws).results = SIZEOF_MESSAGE) ∧
    (∀ r : SendResult, SendSpec msg ws r → r = send_message msg ws) := by
  have huniq : ∀ r : SendResult, SendSpec msg ws r → r = send_message msg ws :=
    fun r hr => sendSpec_unique msg ws r _ hr (send_message_meets_spec msg ws hlen)
  obtain ⟨h1, h2, h3, _, h5⟩ := send_message_loop_spec msg hlen ws 0 [] []
    (Nat.zero_le _) (by simp) (by simp)
  obtain ⟨t1, t2, t3⟩ := send_message_loop_trace msg ws ws 0 [] [] rfl rfl (Nat.zero_le _)
    (by simp) (by intro i r hr; simp at hr)
  refine ⟨⟨fun h => (h1 h).2, ?_⟩, ?_, h2, h3, by simpa using h5, t1, t2, t3, huniq⟩
  · intro hall
    cases hok : (send_message msg ws).ok with
    | true => rfl
    | false =>
      obtain ⟨pre, w, hres, hw, _⟩ := h2 hok
      have hmem : w ∈ (send_message msg ws).results := by
        unfold send_message; rw [hres]; simp
      have := hall w hmem
      omega
  · intro hok
    have hw := (h1 hok).1
    refine ⟨hw, ?_⟩
    unfold send_message
    rw [hw, hlen]
    rfl

/-- A zeroed record offered 1000 and then 200 bytes of room: the transport
takes 1000 and 64 bytes, the whole record. -/
theorem send_message_spec_witness :
    (send_message zero_message [1000, 200]).wire = zero_message ∧
      (send_message zero_message [1000, 200]).wire.length = 1064 ∧
      accepted (send_message zero_message [1000, 200]).results = SIZEOF_MESSAGE :=
  ⟨((send_message_spec zero_message [1000, 200] (List.length_replicate _ _)).2.1
      (by simp [send_message, send_message_loop, sys_write, SIZEOF_MESSAGE])).1,
   ((send_message_spec zero_message [1000, 200] (List.length_replicate _ _)).2.1
      (by simp [send_message, send_message_loop, sys_write, SIZEOF_MESSAGE])).2,
   (send_message_spec zero_message [1000, 200] (List.length_replicate _ _)).2.2.2.2.2.2.2.1
      (by simp [send_message, send_message_loop, sys_write, SIZEOF_MESSAGE])⟩

/-! ## Mentions -/

theorem mention_pattern_eq (name : List Nat) (h : (cstr name).length ≤ 38) :
    mention_pattern name = 64 :: cstr name := by
  unfold mention_pattern
  exact List.take_of_length_le (by rw [List.length_cons]; omega)

theorem strstr_some (pat : List Nat) :
    ∀ (p : List Nat) (k : Nat), strstr p pat = some k →
      pat.isPrefixOf (p.drop k) = true ∧ k ≤ p.length := by
  intro p
  induction p with
  | nil =>
    intro k h
    unfold strstr at h
    by_cases hp : pat = []
    · rw [if_pos hp] at h
      cases h
      subst hp
      simp [List.isPrefixOf]
    · rw [if_neg hp] at h
      cases h
  | cons c cs ih =>
    intro k h
    unfold strstr at h
    by_cases hp : pat.isPrefixOf (c :: cs) = true
    · rw [if_pos hp] at h
      cases h
      exact ⟨hp, Nat.zero_le _⟩
    · rw [if_neg hp] at h
      cases hs : strstr cs pat with
      | none => rw [hs] at h; cases h
      | some j =>
        rw [hs] at h
        simp only [Option.map_some', Option.some.injEq] at h
        subst h
        obtain ⟨h1, h2⟩ := ih j hs
        exact ⟨by simpa using h1, by simp only [List.length_cons]; omega⟩

theorem occurrences_from_skip (pat : List Nat) :
    ∀ (l : List Nat) (skip off : Nat),
      occurrences_from pat skip off l = occurrences_from pat 0 (off + skip) (l.drop skip) := by
  intro l
  induction l with
  | nil =>
    intro skip off
    cases skip <;> simp [occurrences_from]
  | cons c cs ih =>
    intro skip off
    cases skip with
    | zero => simp
    | succ s =>
      rw [occurrences_from, ih s (off + 1), List.drop_succ_cons]
      congr 1
      omega

theorem occurrences_from_strstr (pat : List Nat) (hpat : pat ≠ []) :
    ∀ (l : List Nat) (off : Nat),
      (strstr l pat = none → occurrences_from pat 0 off l = []) ∧
      (∀ k, strstr l pat = some k →
        occurrences_from pat 0 off l
          = (off + k) :: occurrences_from pat 0 (off + k + pat.length)
              (l.drop (k + pat.length))) := by
  have hlen : 1 ≤ pat.length := by
    cases pat with
    | nil => exact absurd rfl hpat
    | cons a as => simp
  intro l
  induction l with
  | nil =>
    intro off
    constructor
    · intro _; rfl
    · intro k h
      unfold strstr at h
      rw [if_neg hpat] at h
      cases h
  | cons c cs ih =>
    intro off
    by_cases hp : pat.isPrefixOf (c :: cs) = true
    · constructor
      · intro h
        unfold strstr at h
        rw [if_pos hp] at h
        cases h
      · intro k h
        unfold strstr at h
        rw [if_pos hp] at h
        cases h
        rw [occurrences_from, if_pos hp, occurrences_from_skip pat cs (pat.length - 1) (off + 1)]
        have h1 : off + 1 + (pat.length - 1) = off + 0 + pat.length := by omega
        have h2 : 0 + pat.length = (pat.length - 1) + 1 := by omega
        rw [h1, h2, List.drop_succ_cons]
        rfl
    · obtain ⟨ih1, ih2⟩ := ih (off + 1)
      constructor
      · intro h
        unfold strstr at h
        rw [if_neg hp] at h
        rw [occurrences_from, if_neg hp]
        apply ih1
        cases hs : strstr cs pat with
        | none => rfl
        | some j => rw [hs] at h; cases h
      · intro k h
        unfold strstr at h
        rw [if_neg hp] at h
        cases hs : strstr cs pat with
        | none => rw [hs] at h; cases h
        | some j =>
          rw [hs] at h
          simp only [Option.map_some', Option.some.injEq] at h
          subst h
          rw [occurrences_from, if_neg hp, ih2 j hs]
          have h1 : off + 1 + j = off + (j + 1) := by omega
          have h2 : j + 1 + pat.length = (j + pat.length) + 1 := by omega
          rw [h1, h2, List.drop_succ_cons]

theorem occurrences_from_length_off (pat : List Nat) :
    ∀ (l : List Nat) (skip off off1 : Nat),
      (occurrences_from pat skip off l).length = (occurrences_from pat skip off1 l).length := by
  intro l
  induction l with
  | nil => intro skip off off1; cases skip <;> simp [occurrences_from]
  | cons c cs ih =>
    intro skip off off1
    cases skip with
    | succ s => rw [occurrences_from, occurrences_from]; exact ih s _ _
    | zero =>
      rw [occurrences_from, occurrences_from]
      by_cases hp : pat.isPrefixOf (c :: cs) = true
      · rw [if_pos hp, if_pos hp, List.length_cons, List.length_cons, ih _ (off + 1) (off1 + 1)]
      · rw [if_neg hp, if_neg hp]; exact ih 0 _ _


theorem scan_mentions_some (quiet : Bool) (name p : List Nat) (k : Nat)
    (hk : strstr p (mention_pattern name) = some k) :
    scan_mentions quiet name p
      = [Out.text (p.take k)] ++ (if !quiet then [Out.bell] else [])
          ++ [Out.highlight ((p.drop k).take (mention_pattern name).length)]
          ++ scan_mentions quiet name (p.drop (k + (mention_pattern name).length)) := by
  rw [scan_mentions]
  split
  · rename_i j hj
    rw [hk] at hj
    cases hj
    rfl
  · rename_i hj
    rw [hk] at hj
    cases hj

theorem scan_mentions_none (quiet : Bool) (name p : List Nat)
    (hk : strstr p (mention_pattern name) = none) :
    scan_mentions quiet name p = [Out.text p] := by
  rw [scan_mentions]
  split
  · rename_i j hj
    rw [hk] at hj
    cases hj
  · rfl

theorem highlights_append (a b : List Out) :
    highlights (a ++ b) = highlights a ++ highlights b := by
  induction a with
  | nil => rfl
  | cons x xs ih => cases x <;> simp [highlights, ih]

theorem shown_append (a b : List Out) : shown (a ++ b) = shown a ++ shown b := by
  induction a with
  | nil => rfl
  | cons x xs ih => cases x <;> simp [shown, ih]

theorem bells_append (a b : List Out) : bells (a ++ b) = bells a + bells b := by
  unfold bells
  exact List.count_append _ _ _

theorem scan_mentions_spec0 (quiet : Bool) (name : List Nat)
    (hpat : (cstr name).length ≤ 38) :
    ∀ (p : List Nat) (off : Nat),
      (highlights (scan_mentions quiet name p)).length
        = (occurrences_from (64 :: cstr name) 0 off p).length ∧
      (∀ seg ∈ highlights (scan_mentions quiet name p), seg = 64 :: cstr name) ∧
      bells (scan_mentions quiet name p)
        = (if quiet then 0 else (occurrences_from (64 :: cstr name) 0 off p).length) ∧
      shown (scan_mentions quiet name p) = p := by
  have hmp := mention_pattern_eq name hpat
  have hne : (64 :: cstr name) ≠ [] := by simp
  intro p
  induction p using scan_mentions.induct quiet name with
  | case1 p k hk ih =>
    intro off
    rw [scan_mentions_some quiet name p k hk]
    rw [hmp] at hk ih ⊢
    obtain ⟨hpre, hkl⟩ := strstr_some _ p k hk
    have hseg : List.take (64 :: cstr name).length (List.drop k p) = 64 :: cstr name := by
      have := List.isPrefixOf_iff_prefix.1 hpre
      exact (List.prefix_iff_eq_take.1 this).symm
    rw [hseg, (occurrences_from_strstr _ hne p off).2 k hk]
    obtain ⟨i1, i2, i3, i4⟩ := ih (off + k + (64 :: cstr name).length)
    refine ⟨?_, ?_, ?_, ?_⟩
    · rw [highlights_append, List.length_append, i1]
      cases quiet <;> simp [highlights] <;> omega
    · intro seg hs
      rw [highlights_append, List.mem_append] at hs
      rcases hs with h | h
      · cases quiet <;> simp [highlights] at h <;> exact h
      · exact i2 seg h
    · rw [bells_append, i3]
      cases quiet <;> simp [bells]
      omega
    · rw [shown_append, i4]
      have : shown ([Out.text (List.take k p)] ++ (if (!quiet) = true then [Out.bell] else [])
          ++ [Out.highlight (64 :: cstr name)]) = List.take k p ++ (64 :: cstr name) := by
        cases quiet <;> simp [shown]
      rw [this]
      nth_rewrite 1 [← hseg]
      rw [List.append_assoc, ← List.drop_drop, List.take_append_drop, List.take_append_drop]
  | case2 p hnone =>
    intro off
    rw [scan_mentions_none quiet name p hnone]
    rw [hmp] at hnone
    rw [(occurrences_from_strstr _ hne p off).1 hnone]
    refine ⟨rfl, ?_, ?_, ?_⟩
    · intro seg hs; simp [highlights] at hs
    · cases quiet <;> simp [bells]
    · simp [shown]

/-- What the mention loop does on a string it reads in full: for a local
user name of at most 31 characters (the string in `settings.username`) and
any string `b`, the loop, which is a total function, highlights as many
segments as there are non-overlapping left-to-right occurrences of `@`
followed by the name in `b`; every highlighted segment is that pattern; it
rings once per occurrence when not quiet and never when quiet; the text and
the highlighted segments together spell `b`; and this loop is what both the
line-mode `switch` of `receive_thread` and `draw_tui` run on a message of
kind `MT_MESSAGE_RECV` whose strings end inside the memory they are read
from. -/
theorem mention_scan_spec (quiet : Bool) (name b : List Nat)
    (hname : (cstr name).length ≤ 31) :
    (highlights (scan_mentions quiet name b)).length
      = (mention_occurrences (64 :: cstr name) b).length ∧
    (∀ seg ∈ highlights (scan_mentions quiet name b), seg = 64 :: cstr name) ∧
    bells (scan_mentions quiet name b)
      = (if quiet then 0 else (mention_occurrences (64 :: cstr name) b).length) ∧
    shown (scan_mentions quiet name b) = b ∧
    (∀ (e : Endian) (c : Client) (msg : message_t) (user : List Nat),
      c.settings.tui = false → c.settings.quiet = quiet → c.settings.username = name →
      username_str msg = some user → message_str msg = some b →
      ntohl e (get_type e msg) = MT_MESSAGE_RECV →
      (process_message e c msg).out
        = c.out ++ Out.header (ntohl e (get_timestamp e msg)) user false
            :: scan_mentions quiet name b) ∧
    (∀ (e : Endian) (s : Settings) (mem user : List Nat),
      s.quiet = quiet → s.username = name →
      cstr_at mem 8 = some user → cstr_at mem 40 = some b →
      ntohl e (load32 e mem) = MT_MESSAGE_RECV →
      draw_message e s mem
        = Out.header (ntohl e (load32 e (mem.drop 4))) user
            ((cstr name ++ [0]).isPrefixOf (mem.drop 8)) :: scan_mentions quiet name b) := by
  obtain ⟨h1, h2, h3, h4⟩ := scan_mentions_spec0 quiet name (by omega) b 0
  refine ⟨h1, h2, h3, h4, ?_, ?_⟩
  · intro e c msg user htui hq hn hu hb hk
    unfold process_message
    rw [if_neg (by rw [htui]; decide)]
    simp only [hk, if_true, hq, hn, hu, hb, str_or_overrun]
  · intro e s mem user hq hn hu hb hk
    unfold draw_message
    rw [if_pos hk, hq, hn, hu, hb]
    rfl

/-- User `alice`, body `hi @alice how are you @alice`: two highlights, two
alerts when not quiet, none when quiet. -/
theorem mention_scan_spec_witness :
    (highlights (scan_mentions false [97, 108, 105, 99, 101, 0]
      [104, 105, 32, 64, 97, 108, 105, 99, 101, 32, 104, 111, 119, 32, 97, 114, 101, 32,
        121, 111, 117, 32, 64, 97, 108, 105, 99, 101])).length = 2 ∧
    bells (scan_mentions false [97, 108, 105, 99, 101, 0]
      [104, 105, 32, 64, 97, 108, 105, 99, 101, 32, 104, 111, 119, 32, 97, 114, 101, 32,
        121, 111, 117, 32, 64, 97, 108, 105, 99, 101]) = 2 ∧
    bells (scan_mentions true [97, 108, 105, 99, 101, 0]
      [104, 105, 32, 64, 97, 108, 105, 99, 101, 32, 104, 111, 119, 32, 97, 114, 101, 32,
        121, 111, 117, 32, 64, 97, 108, 105, 99, 101]) = 0 :=
  ⟨(mention_scan_spec false [97, 108, 105, 99, 101, 0] _ (by decide)).1.trans (by decide),
   (mention_scan_spec false [97, 108, 105, 99, 101, 0] _ (by decide)).2.2.1.trans (by decide),
   (mention_scan_spec true [97, 108, 105, 99, 101, 0] _ (by decide)).2.2.1⟩

/-! ## Shutdown and the full-screen input line -/

theorem load32_poke (e : Endian) (m d : List Nat) (k : Nat) (hk : 4 ≤ k) (hm : k ≤ m.length) :
    load32 e (poke m k d) = load32 e m := by
  have hget : ∀ i, i < 4 → (poke m k d).getD i 0 = m.getD i 0 := by
    intro i hi
    unfold poke
    rw [List.getD_eq_getElem?_getD, List.getD_eq_getElem?_getD, List.append_assoc,
      List.getElem?_append_left (by rw [List.length_take]; omega),
      List.getElem?_take_of_lt (by omega)]
  unfold load32
  rw [hget 0 (by omega), hget 1 (by omega), hget 2 (by omega), hget 3 (by omega)]

theorem set_type_length (e : Endian) (m : message_t) (v : Nat) (h : 4 ≤ m.length) :
    (set_type e m v).length = m.length := by
  unfold set_type
  exact poke_length _ _ _ (by rw [store32_length]; omega)

theorem zero_message_length : zero_message.length = 1064 := List.length_replicate _ _

theorem type_set_type_zero (e : Endian) (x : Nat) (hx : x < 2 ^ 32) :
    ntohl e (get_type e (set_type e zero_message (htonl e x))) = x := by
  unfold get_type set_type zero_message
  rw [poke_replicate_zero _ 0 _ (by rw [store32_length]; decide)]
  simp only [List.replicate_zero, List.nil_append]
  exact ntohl_load32_store32_htonl e x hx _

theorem type_build_logout (e : Endian) : ntohl e (get_type e (build_logout e)) = MT_LOGOUT :=
  type_set_type_zero e MT_LOGOUT (by decide)

theorem type_build_login (e : Endian) (now : Nat) (name : List Nat) :
    ntohl e (get_type e (build_login e now name)) = MT_LOGIN := by
  have hl1 : (set_type e zero_message (htonl e MT_LOGIN)).length = 1064 := by
    rw [set_type_length _ _ _ (by rw [zero_message_length]; decide), zero_message_length]
  have hl2 : (set_timestamp e (set_type e zero_message (htonl e MT_LOGIN)) (htonl e now)).length
      = 1064 := by
    unfold set_timestamp
    rw [poke_length _ _ _ (by rw [store32_length, hl1]; decide), hl1]
  unfold build_login
  simp only []
  unfold get_type copy_username
  rw [load32_poke e _ _ 8 (by decide) (by rw [hl2]; decide)]
  unfold set_timestamp
  rw [load32_poke e _ _ 4 (by decide) (by rw [hl1]; decide)]
  exact type_set_type_zero e MT_LOGIN (by decide)

theorem type_build_message (e : Endian) (kind now : Nat) (name text : List Nat)
    (hk : kind < 2 ^ 32) :
    ntohl e (get_type e (build_message e kind now name text)) = kind := by
  rw [build_message_eq]
  exact ntohl_load32_store32_htonl e kind hk _

theorem build_message_length (e : Endian) (kind now : Nat) (name text : List Nat) :
    (build_message e kind now name text).length = 1064 := by
  rw [build_message_eq]
  simp only [List.length_append, store32_length, strncpy_length, List.length_cons,
    List.length_nil]

theorem process_message_tui (e : Endian) (c : Client) (msg : message_t)
    (htui : c.settings.tui = true) :
    (process_message e c msg).disconnected_by_server = c.disconnected_by_server ∧
    (process_message e c msg).settings.running = c.settings.running ∧
    (process_message e c msg).history = add_to_history c.history msg := by
  unfold process_message
  rw [if_pos htui]
  exact ⟨rfl, rfl, rfl⟩

theorem process_message_line_disconnect (e : Endian) (c : Client) (msg : message_t)
    (htui : c.settings.tui = false) (hk : ntohl e (get_type e msg) = MT_DISCONNECT) :
    (process_message e c msg).disconnected_by_server = true ∧
    (process_message e c msg).settings.running = false ∧
    (process_message e c msg).sent = c.sent := by
  unfold process_message
  rw [if_neg (by rw [htui]; decide)]
  simp only [hk]
  exact ⟨rfl, rfl, rfl⟩

theorem process_message_sent (e : Endian) (c : Client) (msg : message_t) :
    (process_message e c msg).sent = c.sent ∧ (process_message e c msg).main_pc = c.main_pc := by
  unfold process_message
  split
  · exact ⟨rfl, rfl⟩
  · simp only []
    split
    · exact ⟨rfl, rfl⟩
    · split
      · exact ⟨rfl, rfl⟩
      · split <;> exact ⟨rfl, rfl⟩

theorem receive_iter_sent (e : Endian) (c : Client) :
    (receive_iter e c).sent = c.sent ∧ (receive_iter e c).main_pc = c.main_pc := by
  by_cases hpc : c.recv_pc = RecvPc.exited
  · unfold receive_iter
    rw [if_pos hpc]
    exact ⟨rfl, rfl⟩
  · have hpc1 : c.recv_pc = RecvPc.running := by
      cases h : c.recv_pc with
      | running => rfl
      | exited => exact absurd h hpc
    by_cases hrun : c.settings.running = true
    · rw [receive_iter_of_read e c hpc1 hrun]
      split
      · exact ⟨rfl, rfl⟩
      · exact process_message_sent e _ _
    · unfold receive_iter
      rw [if_neg hpc, if_neg hrun]
      exact ⟨rfl, rfl⟩

theorem logout_count_append (e : Endian) (c d : Client) (m : message_t)
    (hs : d.sent = c.sent ++ [m]) :
    logout_count e d
      = logout_count e c + (if ntohl e (get_type e m) = MT_LOGOUT then 1 else 0) := by
  unfold logout_count
  rw [hs]
  simp only [List.filter_append, List.length_append]
  by_cases h : ntohl e (get_type e m) = MT_LOGOUT
  · simp [List.filter, h]
  · have hb : (ntohl e (get_type e m) == MT_LOGOUT) = false := by
      rw [beq_eq_false_iff_ne]; exact h
    simp [List.filter, h, hb]

theorem store_input_sent (c : Client) (i v : Nat) :
    (store_input c i v).sent = c.sent ∧ (store_input c i v).main_pc = c.main_pc := by
  unfold store_input
  split <;> exact ⟨rfl, rfl⟩

theorem logout_count_congr (e : Endian) (c d : Client) (h : d.sent = c.sent) :
    logout_count e d = logout_count e c := by
  unfold logout_count
  rw [h]

theorem logout_count_send (e : Endian) (c d : Client) (now : Nat) (name text : List Nat)
    (h : d.sent = c.sent ++ [build_message e MT_MESSAGE_SEND now name text]) :
    logout_count e d = logout_count e c := by
  have := logout_count_append e c d _ h
  rw [type_build_message e MT_MESSAGE_SEND now name text (by decide),
    if_neg (by decide), Nat.add_zero] at this
  exact this

theorem tui_key_logout (e : Endian) (now k : Nat) (c : Client) :
    logout_count e (tui_key e now k c) = logout_count e c ∧
      (tui_key e now k c).main_pc = c.main_pc := by
  unfold tui_key
  split
  · simp only []
    split
    · constructor
      · rw [logout_count_congr e _ _ (store_input_sent _ _ _).1]
        exact (logout_count_send e (store_input c c.pos 0) _ now _ _ rfl).trans
          (logout_count_congr e _ _ (store_input_sent c c.pos 0).1)
      · rw [(store_input_sent _ _ _).2]
        exact (store_input_sent c c.pos 0).2
    · constructor
      · rw [logout_count_congr e _ _ (store_input_sent _ _ _).1]
        exact logout_count_congr e _ _ (store_input_sent c c.pos 0).1
      · rw [(store_input_sent _ _ _).2]
        exact (store_input_sent c c.pos 0).2
  · split
    · simp only []
      split
      · exact ⟨logout_count_congr e _ _ (store_input_sent _ _ _).1, (store_input_sent _ _ _).2⟩
      · exact ⟨logout_count_congr e _ _ (store_input_sent _ _ _).1, (store_input_sent _ _ _).2⟩
    · split
      · simp only []
        constructor
        · rw [logout_count_congr e _ _ (store_input_sent _ _ _).1]
          exact logout_count_congr e _ _ (store_input_sent c c.pos k).1
        · rw [(store_input_sent _ _ _).2]
          exact (store_input_sent c c.pos k).2
      · exact ⟨rfl, rfl⟩

theorem main_iter_logout (e : Endian) (now : Nat) (stdin : Option (List Nat)) (c : Client) :
    logout_count e (main_iter e now stdin c) = logout_count e c ∧
      ((main_iter e now stdin c).main_pc = c.main_pc ∨
        (main_iter e now stdin c).main_pc = MainPc.joining) := by
  unfold main_iter
  split
  · exact ⟨rfl, Or.inl rfl⟩
  · split
    · split
      · split
        · rename_i k rest
          simp only []
          exact ⟨(logout_count_congr e _ _ rfl).trans (tui_key_logout e now k c).1,
            Or.inl (tui_key_logout e now k c).2⟩
        · exact ⟨rfl, Or.inl rfl⟩
      · split
        · simp only []
          split
          · exact ⟨rfl, Or.inl rfl⟩
          · exact ⟨logout_count_send e c _ now _ _ rfl, Or.inl rfl⟩
        · exact ⟨rfl, Or.inr rfl⟩
    · exact ⟨rfl, Or.inr rfl⟩

theorem step_logoutInv (e : Endian) (c : Client) (ev : Event) (hev : ev ≠ Event.signal)
    (inv : LogoutInv e c) : LogoutInv e (step e c ev) := by
  obtain ⟨i1, i2⟩ := inv
  cases ev with
  | signal => exact absurd rfl hev
  | recv =>
    obtain ⟨h1, h2⟩ := receive_iter_sent e c
    simp only [step]
    unfold LogoutInv
    rw [logout_count_congr e c _ h1, h2]
    exact ⟨i1, i2⟩
  | main now stdin =>
    obtain ⟨h1, h2⟩ := main_iter_logout e now stdin c
    simp only [step]
    unfold LogoutInv
    rw [h1]
    refine ⟨?_, i2⟩
    intro hne
    rcases h2 with h | h
    · rw [h] at hne; exact i1 hne
    · by_cases hd : c.main_pc = MainPc.done
      · have : main_iter e now stdin c = c := by
          unfold main_iter
          rw [if_pos (by rw [hd]; decide)]
        rw [this, hd] at h
        cases h
      · exact i1 hd
  | join =>
    simp only [step]
    unfold main_finish
    split
    · rename_i hj
      have h0 := i1 (by rw [hj.1]; decide)
      simp only []
      split
      · unfold LogoutInv
        have := logout_count_append e c { c with sent := c.sent ++ [build_logout e] }
          (build_logout e) rfl
        rw [type_build_logout, if_pos rfl, h0] at this
        constructor
        · intro hne; exact absurd rfl hne
        · exact le_of_eq this
      · unfold LogoutInv
        constructor
        · intro hne; exact absurd rfl hne
        · exact le_of_eq_of_le h0 (Nat.zero_le _)
    · exact ⟨i1, i2⟩

theorem run_logoutInv (e : Endian) (evs : List Event) :
    ∀ c : Client, Event.signal ∉ evs → LogoutInv e c → LogoutInv e (run e c evs) := by
  induction evs with
  | nil => intro c _ inv; exact inv
  | cons ev rest ih =>
    intro c hsig inv
    have h1 : ev ≠ Event.signal := fun h => hsig (h ▸ List.mem_cons_self _ _)
    have h2 : Event.signal ∉ rest := fun h => hsig (List.mem_cons_of_mem _ h)
    exact ih (step e c ev) h2 (step_logoutInv e c ev h1 inv)

/-- Without a signal, at most one logout record is handed to the socket. -/
theorem logout_at_most_once_without_signal (e : Endian) (fd : Int) (quiet tui : Bool)
    (name : List Nat) (now : Nat) (rows : Int) (tr : List ReadEvent) (evs : List Event)
    (hsig : Event.signal ∉ evs) :
    logout_count e (run e (client_start e fd quiet tui name now rows tr) evs) ≤ 1 := by
  have h0 : logout_count e (client_start e fd quiet tui name now rows tr) = 0 := by
    simp [logout_count, client_start, List.filter, type_build_login, MT_LOGIN, MT_LOGOUT]
  exact (run_logoutInv e evs _ hsig ⟨fun _ => h0, by omega⟩).2

/-- C1 fails on the code: on socket 3, in either mode, whatever the input,
when `handle_signal` runs once and `main` then leaves its loop, joins the
receiving thread and finishes, two logout records have been handed to the
socket: one by the handler, one by `main`. -/
theorem signal_then_shutdown_two_logouts (e : Endian) (quiet tui : Bool) (name : List Nat)
    (now : Nat) (rows : Int) (tr : List ReadEvent) (stdin : Option (List Nat)) :
    logout_count e (run e (client_start e 3 quiet tui name now rows tr)
      [Event.signal, Event.main now stdin, Event.recv, Event.join]) = 2 := by
  simp [run, step, client_start, handle_signal, main_iter, receive_iter, main_finish,
    logout_count, List.filter, type_build_logout, type_build_login, MT_LOGIN, MT_LOGOUT]


theorem perform_full_read_record (rec : message_t) (hrec : rec.length = SIZEOF_MESSAGE)
    (rest : List ReadEvent) :
    perform_full_read zero_message SIZEOF_MESSAGE (ReadEvent.data rec :: rest)
      = ((SIZEOF_MESSAGE : Int), rec, rest) := by
  have hne : rec ≠ [] := by
    intro h; rw [h] at hrec; exact absurd hrec (by decide)
  unfold perform_full_read
  rw [perform_full_read_loop_data _ _ _ _ _ (by decide) hne (by rw [hrec]; decide),
    perform_full_read_loop_done _ _ _ _ (by rw [hrec]; decide)]
  have hp : poke zero_message 0 rec = rec := by
    unfold poke
    rw [List.drop_eq_nil_of_le (by rw [zero_message_length, hrec]; decide)]
    simp
  rw [hp, hrec]
  rfl

/-- C2 fails on the code in full-screen mode: when the receiving thread reads
a whole `MT_DISCONNECT` record there, `disconnected_by_server` stays false and
`running` stays true, and once the peer has closed the stream the shutdown of
`main` hands one logout record to the socket.  In line mode the same record
sets the flag and the shutdown hands over no logout. -/
theorem tui_disconnect_not_handled (e : Endian) (quiet : Bool) (name : List Nat) (now : Nat)
    (rows : Int) (text : List Nat) (stdin : Option (List Nat)) :
    (receive_iter e (client_start e 3 quiet true name now rows
        [ReadEvent.data (build_message e MT_DISCONNECT now [] text)])).disconnected_by_server
      = false ∧
    (receive_iter e (client_start e 3 quiet true name now rows
        [ReadEvent.data (build_message e MT_DISCONNECT now [] text)])).settings.running
      = true ∧
    logout_count e (run e (client_start e 3 quiet true name now rows
        [ReadEvent.data (build_message e MT_DISCONNECT now [] text)])
      [Event.recv, Event.recv, Event.main now stdin, Event.join]) = 1 ∧
    (receive_iter e (client_start e 3 quiet false name now rows
        [ReadEvent.data (build_message e MT_DISCONNECT now [] text)])).disconnected_by_server
      = true ∧
    logout_count e (run e (client_start e 3 quiet false name now rows
        [ReadEvent.data (build_message e MT_DISCONNECT now [] text)])
      [Event.recv, Event.recv, Event.main now stdin, Event.join]) = 0 := by
  have hrec := perform_full_read_record (build_message e MT_DISCONNECT now [] text)
    (build_message_length e _ _ _ _) []
  have hty := type_build_message e MT_DISCONNECT now [] text (by decide)
  have hclosed : perform_full_read zero_message SIZEOF_MESSAGE [] = (0, zero_message, []) := by
    unfold perform_full_read
    rw [perform_full_read_loop]
    simp [sys_read, SIZEOF_MESSAGE]
  simp only [SIZEOF_MESSAGE, MT_DISCONNECT] at hrec hclosed hty
  refine ⟨?_, ?_, ?_, ?_, ?_⟩
  · simp [receive_iter, client_start, hrec, process_message, SIZEOF_MESSAGE, MT_DISCONNECT]
  · simp [receive_iter, client_start, hrec, process_message, SIZEOF_MESSAGE, MT_DISCONNECT]
  · simp [run, step, receive_iter, client_start, hrec, hclosed, process_message, SIZEOF_MESSAGE,
      main_iter, main_finish, logout_count, List.filter, type_build_logout, type_build_login,
      MT_LOGIN, MT_LOGOUT, MT_DISCONNECT]
  · simp [receive_iter, client_start, hrec, process_message, SIZEOF_MESSAGE, hty, MT_DISCONNECT,
      MT_MESSAGE_RECV, MT_SYSTEM]
  · simp [run, step, receive_iter, client_start, hrec, hclosed, process_message, SIZEOF_MESSAGE,
      main_iter, main_finish, logout_count, List.filter, type_build_logout, type_build_login,
      MT_LOGIN, MT_LOGOUT, hty, MT_DISCONNECT, MT_MESSAGE_RECV, MT_SYSTEM]


theorem store_input_fields (c : Client) (i v : Nat) :
    (store_input c i v).pos = c.pos ∧ (store_input c i v).settings = c.settings ∧
    (store_input c i v).disconnected_by_server = c.disconnected_by_server ∧
    (store_input c i v).main_pc = c.main_pc ∧
    (store_input c i v).fault = (c.fault || decide (INPUT_BUFFER ≤ i)) := by
  unfold store_input
  by_cases h : i < INPUT_BUFFER
  · rw [if_pos h]
    refine ⟨rfl, rfl, rfl, rfl, ?_⟩
    have : ¬ INPUT_BUFFER ≤ i := by omega
    simp [this]
  · rw [if_neg h]
    refine ⟨rfl, rfl, rfl, rfl, ?_⟩
    have : INPUT_BUFFER ≤ i := by omega
    simp [this]

theorem main_iter_printable (e : Endian) (now : Nat) (k : Nat) (rest : List Nat) (c : Client)
    (hk : isprint k = true) (hlive : TuiLive c) :
    TuiLive (main_iter e now (some (k :: rest)) c) ∧
    (main_iter e now (some (k :: rest)) c).pos = c.pos + 1 ∧
    (main_iter e now (some (k :: rest)) c).fault
      = (c.fault || decide (INPUT_BUFFER ≤ c.pos + 1)) := by
  obtain ⟨h1, h2, h3, h4⟩ := hlive
  have hk10 : k ≠ 10 := by
    intro h; rw [h] at hk; exact absurd hk (by decide)
  have hk127 : k ≠ 127 := by
    intro h; rw [h] at hk; exact absurd hk (by decide)
  have hkey : tui_key e now k c
      = store_input { store_input c c.pos k with pos := (store_input c c.pos k).pos + 1 }
          ((store_input c c.pos k).pos + 1) 0 := by
    unfold tui_key
    rw [if_neg hk10, if_neg hk127, if_pos hk]
  have hiter : main_iter e now (some (k :: rest)) c
      = { tui_key e now k c with
            out := (tui_key e now k c).out
              ++ draw_tui e (tui_key e now k c) (cstr_at (tui_key e now k c).input 0) } := by
    unfold main_iter
    rw [if_neg (by rw [h1]; decide), if_pos (by rw [h2, h3]; rfl), if_pos h4]
  obtain ⟨a1, a2, a3, a4, a5⟩ := store_input_fields c c.pos k
  obtain ⟨b1, b2, b3, b4, b5⟩ := store_input_fields
    { store_input c c.pos k with pos := (store_input c c.pos k).pos + 1 }
    ((store_input c c.pos k).pos + 1) 0
  rw [hiter]
  simp only []
  rw [hkey]
  refine ⟨⟨?_, ?_, ?_, ?_⟩, ?_, ?_⟩
  · rw [b4]; simp only []; rw [a4, h1]
  · rw [b2]; simp only []; rw [a2, h2]
  · rw [b3]; simp only []; rw [a3, h3]
  · rw [b2]; simp only []; rw [a2, h4]
  · rw [b1]; simp only []; rw [a1]
  · rw [b5]; simp only []; rw [a5, a1]
    by_cases hp : INPUT_BUFFER ≤ c.pos
    · have : INPUT_BUFFER ≤ c.pos + 1 := by omega
      simp [hp, this]
    · simp [hp]

theorem run_printable_keys (e : Endian) (now : Nat) (k : Nat) (hk : isprint k = true) :
    ∀ (n : Nat) (c : Client), TuiLive c →
      TuiLive (run e c (List.replicate n (Event.main now (some [k])))) ∧
      (run e c (List.replicate n (Event.main now (some [k])))).pos = c.pos + n := by
  intro n
  induction n with
  | zero => intro c h; exact ⟨h, rfl⟩
  | succ n ih =>
    intro c h
    obtain ⟨s1, s2, _⟩ := main_iter_printable e now k [] c hk h
    obtain ⟨r1, r2⟩ := ih (main_iter e now (some [k]) c) s1
    rw [List.replicate_succ]
    refine ⟨r1, ?_⟩
    have : run e c (Event.main now (some [k]) :: List.replicate n (Event.main now (some [k])))
        = run e (main_iter e now (some [k]) c) (List.replicate n (Event.main now (some [k]))) := rfl
    rw [this, r2, s2]
    omega

theorem cstr_set_zero (l : List Nat) : cstr (l.set 0 0) = [] := by
  cases l <;> simp [cstr, List.takeWhile]

/-- The backspace key (127) takes one character off the line, or leaves an
empty line empty. -/
theorem tui_key_backspace (e : Endian) (now : Nat) (c : Client) :
    (tui_key e now 127 c).pos = c.pos - 1 := by
  unfold tui_key
  rw [if_neg (by decide), if_pos rfl]
  simp only []
  rw [(store_input_fields _ _ _).1]
  split
  · rfl
  · omega

/-- The end-of-line key (10) empties the line: `pos` is 0 and `input[0]` is NUL. -/
theorem tui_key_newline (e : Endian) (now : Nat) (c : Client) :
    (tui_key e now 10 c).pos = 0 ∧ cstr (tui_key e now 10 c).input = [] := by
  unfold tui_key
  rw [if_pos rfl]
  simp only []
  constructor
  · rw [(store_input_fields _ _ _).1]
  · unfold store_input
    rw [if_pos (by decide)]
    exact cstr_set_zero _

/-- C10 fails on the code: in full-screen mode, after 1024 keys `a` and no
end of line, `pos` is 1024, above `INPUT_BUFFER - 1`, and a store outside the
1024 bytes of `input` has been made (`input[1024] = 0`). -/
theorem input_line_overflow (e : Endian) (quiet : Bool) (name : List Nat) (now : Nat)
    (rows : Int) (tr : List ReadEvent) :
    (run e (client_start e 3 quiet true name now rows tr)
      (List.replicate 1024 (Event.main now (some [97])))).pos = 1024 ∧
    (run e (client_start e 3 quiet true name now rows tr)
      (List.replicate 1024 (Event.main now (some [97])))).fault = true := by
  have hlive : TuiLive (client_start e 3 quiet true name now rows tr) := ⟨rfl, rfl, rfl, rfl⟩
  obtain ⟨r1, r2⟩ := run_printable_keys e now 97 (by decide) 1023 _ hlive
  have hsplit : run e (client_start e 3 quiet true name now rows tr)
      (List.replicate 1024 (Event.main now (some [97])))
      = main_iter e now (some [97]) (run e (client_start e 3 quiet true name now rows tr)
          (List.replicate 1023 (Event.main now (some [97])))) := by
    rw [show (1024 : Nat) = 1023 + 1 from rfl, List.replicate_succ']
    unfold run
    rw [List.foldl_append, List.foldl_cons, List.foldl_nil]
    simp only [step]
  obtain ⟨_, s2, s3⟩ := main_iter_printable e now 97 [] _ (by decide) r1
  rw [hsplit, s2, s3, r2]
  have hp : (client_start e 3 quiet true name now rows tr).pos = 0 := rfl
  rw [hp]
  have hcap : INPUT_BUFFER ≤ 0 + 1023 + 1 := by unfold INPUT_BUFFER; omega
  exact ⟨by omega, by rw [decide_eq_true hcap, Bool.or_true]⟩


/-! ## Strings that leave their record -/

theorem full_body_record_length : full_body_record.length = SIZEOF_MESSAGE := by
  unfold full_body_record SIZEOF_MESSAGE
  simp only [List.length_append, List.length_cons, List.length_nil, List.length_replicate]

theorem at_bob_record_length : at_bob_record.length = SIZEOF_MESSAGE := by
  unfold at_bob_record SIZEOF_MESSAGE
  simp only [List.length_append, List.length_cons, List.length_nil, List.length_replicate]

theorem strstr_replicate (x y : Nat) (hxy : x ≠ y) (pat l : List Nat) :
    ∀ n : Nat, strstr (List.replicate n x ++ l) (y :: pat)
      = (strstr l (y :: pat)).map (fun k => k + n) := by
  intro n
  induction n with
  | zero => simp
  | succ n ih =>
    rw [List.replicate_succ, List.cons_append, strstr]
    have hnp : ¬ ((y :: pat).isPrefixOf (x :: (List.replicate n x ++ l)) = true) := by
      simp only [List.isPrefixOf, Bool.and_eq_true, beq_iff_eq, not_and]
      intro h; exact absurd h.symm hxy
    rw [if_neg hnp, ih]
    cases strstr l (y :: pat) with
    | none => rfl
    | some k => simp only [Option.map_some', Option.some.injEq]; omega

theorem bob_pattern :
    mention_pattern (strncpy [98, 111, 98] 31 ++ [0]) = [64, 98, 111, 98] := by
  decide


theorem receive_iter_tui_record (e : Endian) (c : Client) (rec : message_t)
    (rest : List ReadEvent) (hpc : c.recv_pc = RecvPc.running)
    (hrun : c.settings.running = true) (htui : c.settings.tui = true)
    (htr : c.transport = ReadEvent.data rec :: rest) (hrec : rec.length = SIZEOF_MESSAGE) :
    (receive_iter e c).history = add_to_history c.history rec ∧
    (receive_iter e c).out = c.out ++ draw_tui e
      { c with transport := rest, history := add_to_history c.history rec } none ∧
    (receive_iter e c).settings = c.settings ∧
    (receive_iter e c).recv_pc = c.recv_pc ∧
    (receive_iter e c).term_rows = c.term_rows ∧
    (receive_iter e c).transport = rest := by
  rw [receive_iter_of_read e c hpc hrun, htr, perform_full_read_record rec hrec rest]
  rw [if_neg (by simp [SIZEOF_MESSAGE])]
  unfold process_message
  rw [if_pos (by exact htui)]
  exact ⟨rfl, rfl, rfl, rfl, rfl, rfl⟩

theorem history_first (rec : message_t) :
    add_to_history History.empty rec
      = ⟨rec :: List.replicate 999 zero_message, 1⟩ := by
  unfold add_to_history History.empty
  rw [if_pos (by decide)]
  simp only []
  rw [show MAX_MESSAGES = 999 + 1 from rfl, List.replicate_succ, List.set_cons_zero]

theorem history_second (a b : message_t) :
    add_to_history ⟨a :: List.replicate 999 zero_message, 1⟩ b
      = ⟨a :: b :: List.replicate 998 zero_message, 2⟩ := by
  unfold add_to_history
  have h : (History.mk (a :: List.replicate 999 zero_message) 1).count < MAX_MESSAGES := by
    show (1 : Nat) < MAX_MESSAGES
    decide
  rw [if_pos h]
  simp only []
  rw [show (999 : Nat) = 998 + 1 from rfl, List.replicate_succ, List.set_cons_succ,
    List.set_cons_zero]

theorem zero_message_cons : zero_message = 0 :: List.replicate 1063 0 := by
  unfold zero_message
  rw [show SIZEOF_MESSAGE = 1063 + 1 from rfl, List.replicate_succ]

theorem draw_full_body (e : Endian) (s : Settings) (t more : List Nat) (ht : 0 ∉ t) :
    highlights (draw_message e s (full_body_record ++ (t ++ 0 :: more)))
      = highlights (scan_mentions s.quiet s.username (List.replicate 1024 120 ++ t)) ∧
    bells (draw_message e s (full_body_record ++ (t ++ 0 :: more)))
      = bells (scan_mentions s.quiet s.username (List.replicate 1024 120 ++ t)) := by
  have hty : ntohl e (load32 e (full_body_record ++ (t ++ 0 :: more))) = MT_MESSAGE_RECV := by
    have h10 : ([0, 0, 0, 10] : List Nat) = store32 e (htonl e 10) := by
      rw [store32_htonl e 10 (by decide)]
    unfold full_body_record
    rw [h10, List.append_assoc]
    exact ntohl_load32_store32_htonl e 10 (by decide) _
  have h8 : cstr_at (full_body_record ++ (t ++ 0 :: more)) 8 = some [99, 97, 114, 111, 108] := by
    apply cstr_at_zeros _ 8 _ 26 (List.replicate 1024 120 ++ (t ++ 0 :: more)) _ (by decide)
    unfold full_body_record
    rw [show (27 : Nat) = 26 + 1 from rfl, List.replicate_succ']
    simp only [List.append_assoc, List.cons_append, List.nil_append, List.drop_succ_cons,
      List.drop_zero]
  have h40 : cstr_at (full_body_record ++ (t ++ 0 :: more)) 40
      = some (List.replicate 1024 120 ++ t) := by
    have hx : (0 : Nat) ∉ List.replicate 1024 120 ++ t := by
      intro hm
      rcases List.mem_append.1 hm with h | h
      · have := List.eq_of_mem_replicate h
        exact absurd this (by decide)
      · exact ht h
    apply cstr_at_zeros _ 40 _ 0 more _ hx
    unfold full_body_record
    have hpre : ([0, 0, 0, 10] ++ ([0, 0, 0, 0] ++ (([99, 97, 114, 111, 108] ++ List.replicate 27 0)
        ++ List.replicate 1024 120))) ++ (t ++ 0 :: more)
        = ([0, 0, 0, 10] ++ ([0, 0, 0, 0] ++ ([99, 97, 114, 111, 108] ++ List.replicate 27 0)))
          ++ (List.replicate 1024 120 ++ (t ++ 0 :: more)) := by
      simp only [List.append_assoc]
    rw [hpre, List.drop_left' (by
      simp only [List.length_append, List.length_cons, List.length_nil, List.length_replicate])]
    simp only [List.replicate_zero, List.nil_append, List.append_assoc]
  unfold draw_message
  rw [if_pos hty, h8, h40]
  simp only [str_or_overrun, highlights, bells, List.count_cons_of_ne, ne_eq, not_false_eq_true,
    reduceCtorEq]
  exact ⟨trivial, trivial⟩


theorem scan_no_mention (quiet : Bool) (name : List Nat)
    (hp : mention_pattern name = [64, 98, 111, 98]) :
    scan_mentions quiet name (List.replicate 1024 120 ++ [])
      = [Out.text (List.replicate 1024 120 ++ [])] := by
  apply scan_mentions_none
  rw [hp, strstr_replicate 120 64 (by decide)]
  rfl

theorem scan_one_mention (quiet : Bool) (name : List Nat)
    (hp : mention_pattern name = [64, 98, 111, 98]) :
    highlights (scan_mentions quiet name (List.replicate 1024 120 ++ [64, 98, 111, 98]))
      = [[64, 98, 111, 98]] ∧
    bells (scan_mentions quiet name (List.replicate 1024 120 ++ [64, 98, 111, 98]))
      = (if quiet then 0 else 1) := by
  have hk : strstr (List.replicate 1024 120 ++ [64, 98, 111, 98]) (mention_pattern name)
      = some 1024 := by
    rw [hp, strstr_replicate 120 64 (by decide)]
    rfl
  have hdrop : List.drop 1024 (List.replicate 1024 120 ++ [64, 98, 111, 98])
      = [64, 98, 111, 98] := List.drop_left' (List.length_replicate _ _)
  have hend : List.drop (1024 + (mention_pattern name).length)
      (List.replicate 1024 120 ++ [64, 98, 111, 98]) = [] := by
    rw [← List.drop_drop, hdrop, hp]
    rfl
  have hnil : scan_mentions quiet name [] = [Out.text []] := by
    apply scan_mentions_none
    rw [hp]
    rfl
  rw [scan_mentions_some quiet name _ 1024 hk, hend, hnil, hdrop, hp]
  cases quiet <;> exact ⟨rfl, rfl⟩

theorem draw_at_bob (e : Endian) (s : Settings) (rest : List Nat) :
    draw_message e s (at_bob_record ++ rest) = [] := by
  have hty : ntohl e (load32 e (at_bob_record ++ rest)) = 1080192866 := by
    have hb : ([64, 98, 111, 98] : List Nat) = store32 e (htonl e 1080192866) := by
      rw [store32_htonl e 1080192866 (by decide)]
    unfold at_bob_record
    rw [hb, List.append_assoc]
    exact ntohl_load32_store32_htonl e 1080192866 (by decide) _
  unfold draw_message
  rw [hty, if_neg (by decide), if_neg (by decide), if_neg (by decide)]


theorem draw_tui_one (e : Endian) (c : Client) (a : message_t)
    (hh : c.history = ⟨a :: List.replicate 999 zero_message, 1⟩) (hr : c.term_rows = 24) :
    draw_tui e c none
      = [Out.clear] ++ draw_message e c.settings
            (a ++ ([] ++ 0 :: (List.replicate 1063 0
              ++ ((List.replicate 998 zero_message).flatten ++ store32 e 1))))
          ++ [Out.prompt 23 none] := by
  unfold draw_tui history_from
  rw [hh, hr]
  simp only []
  rw [if_neg (by decide)]
  have hrange : List.drop (0 : Int).toNat (List.range 1) = [0] := by decide
  rw [hrange]
  simp only [List.flatMap_cons, List.flatMap_nil, List.append_nil, List.drop_zero,
    List.flatten_cons]
  rw [show (999 : Nat) = 998 + 1 from rfl, List.replicate_succ, List.flatten_cons,
    zero_message_cons]
  simp only [List.append_assoc, List.cons_append, List.nil_append]
  rfl

theorem draw_tui_two (e : Endian) (c : Client) (a b : message_t)
    (hh : c.history = ⟨a :: b :: List.replicate 998 zero_message, 2⟩) (hr : c.term_rows = 24) :
    draw_tui e c none
      = [Out.clear]
          ++ (draw_message e c.settings
                (a ++ (b ++ ((List.replicate 998 zero_message).flatten ++ store32 e 2)))
              ++ draw_message e c.settings
                (b ++ ((List.replicate 998 zero_message).flatten ++ store32 e 2)))
          ++ [Out.prompt 23 none] := by
  unfold draw_tui history_from
  rw [hh, hr]
  simp only []
  rw [if_neg (by decide)]
  have hrange : List.drop (0 : Int).toNat (List.range 2) = [0, 1] := by decide
  rw [hrange]
  simp only [List.flatMap_cons, List.flatMap_nil, List.append_nil, List.drop_zero,
    List.drop_succ_cons, List.flatten_cons, List.append_assoc]
  rfl

theorem at_bob_record_shape (rest : List Nat) :
    at_bob_record ++ rest = [64, 98, 111, 98] ++ 0 :: (List.replicate 1059 0 ++ rest) := by
  unfold at_bob_record
  rw [show (1060 : Nat) = 1059 + 1 from rfl, List.replicate_succ]
  simp only [List.append_assoc, List.cons_append, List.nil_append]

theorem full_body_record_body : full_body_record.drop 40 = List.replicate 1024 120 := by
  unfold full_body_record
  rw [← List.append_assoc, ← List.append_assoc]
  exact List.drop_left' (by
    simp only [List.length_append, List.length_cons, List.length_nil, List.length_replicate])

theorem overrun_out (e : Endian) (c0 : Client) (hpc : c0.recv_pc = RecvPc.running)
    (hrun : c0.settings.running = true) (htui : c0.settings.tui = true)
    (htr : c0.transport = [ReadEvent.data full_body_record, ReadEvent.data at_bob_record])
    (hh : c0.history = History.empty) (hrows : c0.term_rows = 24) (hout : c0.out = [])
    (hq : c0.settings.quiet = false)
    (hpat : mention_pattern c0.settings.username = [64, 98, 111, 98]) :
    highlights (receive_iter e (receive_iter e c0)).out = [[64, 98, 111, 98]] ∧
    bells (receive_iter e (receive_iter e c0)).out = 1 := by
  obtain ⟨h1, o1, st1, pc1, rw1, tr1⟩ := receive_iter_tui_record e c0
    full_body_record [ReadEvent.data at_bob_record] hpc hrun htui htr full_body_record_length
  obtain ⟨h2, o2, _, _, _, _⟩ := receive_iter_tui_record e (receive_iter e c0)
    at_bob_record [] (by rw [pc1, hpc]) (by rw [st1, hrun]) (by rw [st1, htui]) tr1
    at_bob_record_length
  have hd1 := draw_tui_one e
    { c0 with transport := [ReadEvent.data at_bob_record],
              history := add_to_history c0.history full_body_record }
    full_body_record (by simp only []; rw [hh]; exact history_first _) hrows
  have hd2 := draw_tui_two e
    { receive_iter e c0 with
      transport := [],
      history := add_to_history (receive_iter e c0).history at_bob_record }
    full_body_record at_bob_record
    (by simp only []; rw [h1, hh, history_first]; exact history_second _ _)
    (by simp only []; rw [rw1, hrows])
  simp only [] at hd1 hd2
  have hA1 := draw_full_body e c0.settings []
      (List.replicate 1063 0 ++ ((List.replicate 998 zero_message).flatten ++ store32 e 1))
      (by simp)
  have hA2 := draw_full_body e c0.settings [64, 98, 111, 98]
      (List.replicate 1059 0 ++ ((List.replicate 998 zero_message).flatten ++ store32 e 2))
      (by decide)
  rw [← at_bob_record_shape] at hA2
  have hs0 := scan_no_mention false c0.settings.username hpat
  have hs1 := scan_one_mention false c0.settings.username hpat
  have hB := draw_at_bob e c0.settings
      ((List.replicate 998 zero_message).flatten ++ store32 e 2)
  rw [hq] at hA1 hA2
  rw [hs0] at hA1
  rw [hs1.1, hs1.2] at hA2
  constructor
  · rw [o2, hd2, o1, hd1, hout, st1, hB]
    simp only [highlights_append, hA1.1, hA2.1]
    rfl
  · rw [o2, hd2, o1, hd1, hout, st1, hB]
    simp only [bells_append, hA1.2, hA2.2]
    rfl

theorem line_mode_overrun (e : Endian) (c : Client) (htui : c.settings.tui = false) :
    (process_message e c full_body_record).out
      = c.out ++ [Out.header 0 [99, 97, 114, 111, 108] false, Out.overrun] := by
  have hty : ntohl e (get_type e full_body_record) = MT_MESSAGE_RECV := by
    have h10 : ([0, 0, 0, 10] : List Nat) = store32 e (htonl e 10) := by
      rw [store32_htonl e 10 (by decide)]
    unfold get_type full_body_record
    rw [h10]
    exact ntohl_load32_store32_htonl e 10 (by decide) _
  have hts : ntohl e (get_timestamp e full_body_record) = 0 := by
    have h0 : ([0, 0, 0, 0] : List Nat) = store32 e (htonl e 0) := by
      rw [store32_htonl e 0 (by decide)]
    unfold get_timestamp full_body_record
    rw [List.drop_left' (by rfl), h0]
    exact ntohl_load32_store32_htonl e 0 (by decide) _
  have h8 : username_str full_body_record = some [99, 97, 114, 111, 108] := by
    unfold username_str
    apply cstr_at_zeros _ 8 _ 26 (List.replicate 1024 120) _ (by decide)
    unfold full_body_record
    rw [show (27 : Nat) = 26 + 1 from rfl, List.replicate_succ']
    simp only [List.append_assoc, List.cons_append, List.nil_append, List.drop_succ_cons,
      List.drop_zero]
  have h40 : message_str full_body_record = none := by
    unfold message_str cstr_at
    rw [full_body_record_body, if_neg]
    intro hm
    exact absurd (List.eq_of_mem_replicate hm) (by decide)
  unfold process_message
  rw [if_neg (by rw [htui]; decide)]
  simp only []
  rw [hty, if_pos rfl, hts, h8, h40]
  rfl

/-- C9 fails on the code: in full-screen mode, with local user `bob` and not
quiet, the client receives a `Receive` record whose 1024-byte body is all `x`
with no NUL, then a record whose `type` bytes spell `@bob`.  The body holds no
occurrence of `@bob`, yet the second redraw reads the body on into the next
history entry, highlights one `@bob` and rings once.  In line mode the same
first record makes the read of the body leave the local `msg`. -/
theorem mention_scan_overrun (e : Endian) (now : Nat) :
    highlights (run e (client_start e 3 false true [98, 111, 98] now 24
        [ReadEvent.data full_body_record, ReadEvent.data at_bob_record])
      [Event.recv, Event.recv]).out = [[64, 98, 111, 98]] ∧
    bells (run e (client_start e 3 false true [98, 111, 98] now 24
        [ReadEvent.data full_body_record, ReadEvent.data at_bob_record])
      [Event.recv, Event.recv]).out = 1 ∧
    mention_occurrences [64, 98, 111, 98] (full_body_record.drop 40) = [] ∧
    (process_message e (client_start e 3 false false [98, 111, 98] now 24 [])
        full_body_record).out
      = [Out.header 0 [99, 97, 114, 111, 108] false, Out.overrun] := by
  have hrun : run e (client_start e 3 false true [98, 111, 98] now 24
        [ReadEvent.data full_body_record, ReadEvent.data at_bob_record])
      [Event.recv, Event.recv]
      = receive_iter e (receive_iter e (client_start e 3 false true [98, 111, 98] now 24
        [ReadEvent.data full_body_record, ReadEvent.data at_bob_record])) := rfl
  obtain ⟨k1, k2⟩ := overrun_out e (client_start e 3 false true [98, 111, 98] now 24
      [ReadEvent.data full_body_record, ReadEvent.data at_bob_record])
    rfl rfl rfl rfl rfl rfl rfl rfl bob_pattern
  refine ⟨by rw [hrun]; exact k1, by rw [hrun]; exact k2, ?_, ?_⟩
  · rw [full_body_record_body]
    have := (occurrences_from_strstr [64, 98, 111, 98] (by decide)
      (List.replicate 1024 120 ++ []) 0).1
      (by rw [strstr_replicate 120 64 (by decide)]; rfl)
    rw [List.append_nil] at this
    exact this
  · exact line_mode_overrun e _ rfl

end MyCord
